import Mathlib

/-!
# Fault-injection model and runtime defenses

A shallow embedding of `advanced_faults.c`, `defense_policy.h`,
`defense_redundancy.h` and `defense_transition.h`.

Conventions of the embedding
* A byte is a `UInt8`; arithmetic on bytes is done on `Nat` after `toNat`
  (C integer promotion) and truncated with an explicit `% 256` on store.
* `size_t` is 64 bits wide: sums and products of sizes are reduced mod `2 ^ 64`.
* A `(pointer, length)` pair that is only read is a `List UInt8`; a nullable
  pointer is an `Option`.
* `memset` / `memcpy` return `none` when the access leaves the buffer (undefined
  behaviour in C), so a result `some _` certifies that every access was in bounds.
* The C library generator is a parameter: `rand : R → Nat × R` draws one
  non-negative value and advances the generator state, `srand : Nat → R` seeds it.
* `atoi` is the GNU C library one, `(int) strtol(s, NULL, 10)`: the number read is
  saturated to a 64-bit `long` and truncated to a 32-bit `int`.
* Diagnostics written to `stderr` are not part of the state.
-/

namespace FaultDefense

/-! ## Memory helpers (C library) -/

/-- Modulus of `size_t` arithmetic. -/
def SIZE_MOD : Nat := 2 ^ 64

/-- Model of `memset(buf + off, c, n)`; `none` when `[off, off + n)` is not inside `buf`. -/
def memset (buf : List UInt8) (off : Nat) (c : UInt8) (n : Nat) : Option (List UInt8) :=
  if off + n ≤ buf.length then
    some (buf.take off ++ List.replicate n c ++ buf.drop (off + n))
  else none

/-- Model of `memcpy(dst, src, n)`; `none` when either buffer is shorter than `n`. -/
def memcpy (dst src : List UInt8) (n : Nat) : Option (List UInt8) :=
  if n ≤ dst.length ∧ n ≤ src.length then some (src.take n ++ dst.drop n) else none

/-- Model of `memcmp(a, b, n)`: difference of the first pair of differing bytes among
the first `n`, `0` when there is none. -/
def memcmp : List UInt8 → List UInt8 → Nat → Int
  | a :: as, b :: bs, n + 1 =>
    if a = b then memcmp as bs n else (a.toNat : Int) - (b.toNat : Int)
  | _, _, _ => 0

/-- The process environment: `getenv`. -/
abbrev Env := String → Option String

/-! ## defense_policy.h -/

/-- Defense level (`DefenseLevel`). -/
inductive DefenseLevel where
  | DEFENSE_OFF
  | DEFENSE_LIGHT
  | DEFENSE_FULL
  deriving DecidableEq, Repr

/-- Numeric value of the C enumerator. -/
def DefenseLevel.toInt : DefenseLevel → Int
  | .DEFENSE_OFF => 0
  | .DEFENSE_LIGHT => 1
  | .DEFENSE_FULL => 2

/-- A checksum strategy `(data, len, out)`: the data bytes and the digest buffer on
entry are mapped to the digest buffer on return. -/
abbrev ChecksumFunc := List UInt8 → List UInt8 → List UInt8

/-- Integrity policy (`IntegrityPolicy`). -/
structure IntegrityPolicy where
  checksum_fn : ChecksumFunc
  hash_len : Nat
  name : String

/-- Global defense configuration (`DefenseConfig`). -/
structure DefenseConfig where
  level : DefenseLevel
  integrity : IntegrityPolicy
  enable_self_verify : Int
  enable_duplication : Int

/-- Weak strategy: `sum ^= p[i]` over the data, `out[0] = sum`, `memset(out + 1, 0, 31)`. -/
def strategy_xor_checksum : ChecksumFunc := fun data out =>
  let sum := data.foldl (fun s b => (s ^^^ b.toNat) % 256) 0
  UInt8.ofNat sum :: (List.replicate 31 0 ++ out.drop 32)

/-- Strong strategy: FNV-1a on a `uint32_t`, `memcpy(out, &hash, 4)` (little-endian),
`memset(out + 4, 0, 28)`. -/
def strategy_fnv1a_checksum : ChecksumFunc := fun data out =>
  let hash := data.foldl (fun h b => ((h ^^^ b.toNat) % 2 ^ 32 * 16777619) % 2 ^ 32) 2166136261
  [UInt8.ofNat (hash % 256), UInt8.ofNat (hash / 2 ^ 8 % 256),
   UInt8.ofNat (hash / 2 ^ 16 % 256), UInt8.ofNat (hash / 2 ^ 24 % 256)]
    ++ (List.replicate 28 0 ++ out.drop 32)

/-- Initialise the configuration from the environment (`defense_init_from_env`).
A null `cfg` is left alone; otherwise the previous contents are overwritten. -/
def defense_init_from_env (env : Env) (cfg : Option DefenseConfig) : Option DefenseConfig :=
  match cfg with
  | none => none
  | some _ =>
    let level : DefenseLevel :=
      match env "MLDSA_DEFENSE_LEVEL" with
      | some lvl =>
        if lvl = "LIGHT" then .DEFENSE_LIGHT
        else if lvl = "FULL" then .DEFENSE_FULL
        else .DEFENSE_OFF
      | none => .DEFENSE_OFF
    let integrity : IntegrityPolicy :=
      match env "MLDSA_INTEGRITY_POLICY" with
      | some policy =>
        if policy = "STRONG" then ⟨strategy_fnv1a_checksum, 4, "STRONG_FNV"⟩
        else ⟨strategy_xor_checksum, 1, "WEAK_XOR"⟩
      | none => ⟨strategy_xor_checksum, 1, "WEAK_XOR"⟩
    some
      { level := level
        integrity := integrity
        enable_self_verify := if level.toInt ≥ DefenseLevel.DEFENSE_LIGHT.toInt then 1 else 0
        enable_duplication := if level.toInt ≥ DefenseLevel.DEFENSE_FULL.toInt then 1 else 0 }

/-! ## defense_redundancy.h -/

/-- A critical operation `op(out, out_len, in, in_len)`: it may read and update the
world (globals, including the shared generator) and the bytes behind `out`. -/
abbrev CriticalOp2 (W : Type) := W → List UInt8 → Nat → List UInt8 → Nat → W × List UInt8

/-- Memory visible to the duplication guard after the call. -/
structure DupState (W : Type) where
  world : W
  real_out : Option (List UInt8)
  work_buf1 : List UInt8
  work_buf2 : List UInt8

/-- Random busy delay (`defense_random_delay`): one draw, then `rand() % 32` iterations
of `dummy ^= i` on a local; only the generator state escapes. -/
def defense_random_delay {W : Type} (rand : W → Nat × W) (w : W) : W :=
  let draw := rand w
  let loops := draw.1 % 32
  let _dummy := (List.range loops).foldl (fun d i => d ^^^ i) 0
  draw.2

/-- The comparison loop `for (i = 0; i < out_len; i++) diff |= (uint8_t)(b1[i] ^ b2[i])`,
started with accumulator `diff`; `none` when a read leaves a buffer. -/
def diff_accumulate : Nat → List UInt8 → List UInt8 → Nat → Option Nat
  | 0, _, _, diff => some diff
  | n + 1, a :: as, b :: bs, diff =>
    diff_accumulate n as bs ((diff ||| ((a.toNat ^^^ b.toNat) % 256)) % 256)
  | _ + 1, _, _, _ => none

/-- Dual execution with compare (`defense_duplicate_check_no_malloc`). Returns the C
return value and the memory after the call; `none` when a scratch buffer or the output
buffer is shorter than `out_len`. -/
def defense_duplicate_check_no_malloc {W : Type} (rand : W → Nat × W)
    (cfg : Option DefenseConfig) (op : Option (CriticalOp2 W))
    (real_out : Option (List UInt8)) (out_len : Nat) (inp : List UInt8) (in_len : Nat)
    (work_buf1 work_buf2 : List UInt8) (w : W) : Option (Int × DupState W) :=
  match cfg, op, real_out with
  | some cfg, some op, some out =>
    if cfg.enable_duplication = 0 then
      let r := op w out out_len inp in_len
      some (1, ⟨r.1, some r.2, work_buf1, work_buf2⟩)
    else
      let r1 := op w work_buf1 out_len inp in_len
      let w2 := defense_random_delay rand r1.1
      let r2 := op w2 work_buf2 out_len inp in_len
      match diff_accumulate out_len r1.2 r2.2 0 with
      | none => none
      | some diff =>
        if diff ≠ 0 then
          match memset r1.2 0 0 out_len, memset r2.2 0 0 out_len with
          | some z1, some z2 => some (0, ⟨r2.1, some out, z1, z2⟩)
          | _, _ => none
        else
          match memcpy out r1.2 out_len with
          | none => none
          | some o =>
            match memset r1.2 0 0 out_len, memset r2.2 0 0 out_len with
            | some z1, some z2 => some (1, ⟨r2.1, some o, z1, z2⟩)
            | _, _ => none
  | _, _, _ => some (0, ⟨w, real_out, work_buf1, work_buf2⟩)

/-- Instrumentation used to count executions: the world is extended with a generator
state, which the operation does not touch, and a call counter. -/
def counted {W R : Type} (op : CriticalOp2 W) : CriticalOp2 (W × R × Nat) :=
  fun w out out_len inp in_len =>
    let r := op w.1 out out_len inp in_len
    ((r.1, w.2.1, w.2.2 + 1), r.2)

/-- The generator acting on the generator component of an instrumented world. -/
def rand_on {W R : Type} (rand : R → Nat × R) (w : W × R × Nat) : Nat × (W × R × Nat) :=
  ((rand w.2.1).1, (w.1, (rand w.2.1).2, w.2.2))

/-! ## defense_transition.h -/

/-- Byte-addressed memory; address `0` is the null pointer. -/
abbrev Mem := Nat → UInt8

/-- The `len` bytes stored at `addr`. -/
def read_region (mem : Mem) (addr len : Nat) : List UInt8 :=
  (List.range len).map (fun i => mem (addr + i))

/-- State snapshot (`StateSnapshot`): digest, region and the configuration it was
taken under (the configuration is read-only, so its value stands for the pointer). -/
structure StateSnapshot where
  hash : List UInt8
  addr : Nat
  len : Nat
  cfg : Option DefenseConfig

/-- A snapshot object as zero-initialised storage: zero digest, null region, null config. -/
def StateSnapshot.zeroed : StateSnapshot :=
  { hash := List.replicate 32 0, addr := 0, len := 0, cfg := none }

/-- Take a snapshot (`defense_snapshot_take`): returns the contents of `*snap` after the call. -/
def defense_snapshot_take (cfg : Option DefenseConfig) (snap : Option StateSnapshot)
    (addr len : Nat) (mem : Mem) : Option StateSnapshot :=
  match cfg, snap with
  | some c, some s =>
    if c.level.toInt < DefenseLevel.DEFENSE_FULL.toInt then some s
    else if addr = 0 ∨ len = 0 then some s
    else
      some
        { addr := addr
          len := len
          cfg := some c
          hash := c.integrity.checksum_fn (read_region mem addr len) (List.replicate 32 0) }
  | _, _ => snap

/-- Low-entropy heuristic (`estimate_low_entropy`) on a nullable `(data, len)` pair. -/
def estimate_low_entropy (data : Option (List UInt8)) : Int :=
  match data with
  | none => 0
  | some p =>
    let len := p.length
    if len < 32 then 0
    else
      let zero_count := p.foldl (fun z b => if b = 0 then z + 1 else z) 0
      if (zero_count * 10) % SIZE_MOD > (len * 9) % SIZE_MOD then 1 else 0

/-- Validate a transition (`defense_validate_transition`) against the current memory. -/
def defense_validate_transition (snap : Option StateSnapshot) (context_name : Option String)
    (mem : Mem) : Int :=
  match snap with
  | none => 1
  | some s =>
    match s.cfg with
    | none => 1
    | some cfg =>
      if cfg.level.toInt < DefenseLevel.DEFENSE_FULL.toInt then 1
      else if s.addr = 0 ∨ s.len = 0 then 1
      else
        let p := read_region mem s.addr s.len
        let current_hash := cfg.integrity.checksum_fn p (List.replicate 32 0)
        let hlen := if cfg.integrity.hash_len > 32 then 32 else cfg.integrity.hash_len
        let _ctx := context_name.getD "UNKNOWN"
        if memcmp s.hash current_hash hlen = 0 then 0
        else if estimate_low_entropy (some p) ≠ 0 then 0
        else 1

/-! ## advanced_faults.h / advanced_faults.c -/

/-- Fault shapes (`FaultType`). -/
inductive FaultType where
  | FAULT_NONE
  | FAULT_INSTRUCTION_SKIP
  | FAULT_BIT_FLIP
  | FAULT_PARTIAL_ZERO
  | FAULT_FIXED_RNG
  deriving DecidableEq, Repr

/-- The global fault model (`FaultModel`, `g_fault_model`). `granularity` is a `size_t`,
`seed` an `unsigned int`, `prob_percent` and `enabled` are `int`. -/
structure FaultModel where
  type : FaultType
  prob_percent : Int
  granularity : Nat
  seed : Nat
  enabled : Int
  deriving DecidableEq, Repr

/-- C library `isspace` in the "C" locale. -/
def isspace (c : Char) : Bool :=
  c.toNat = 32 || (9 ≤ c.toNat && c.toNat ≤ 13)

/-- C library `isdigit`. -/
def isdigit (c : Char) : Bool :=
  decide (48 ≤ c.toNat) && decide (c.toNat ≤ 57)

/-- Digit loop of `strtol`: accumulate decimal digits, stop at the first other character. -/
def atoi_digits : List Char → Int → Int
  | [], acc => acc
  | c :: cs, acc =>
    if isdigit c = true then atoi_digits cs (acc * 10 + ((c.toNat : Int) - 48))
    else acc

/-- Largest value of a 64-bit `long`. -/
def LONG_MAX : Int := 9223372036854775807

/-- Smallest value of a 64-bit `long`. -/
def LONG_MIN : Int := -9223372036854775808

/-- Range handling of `strtol`: a value outside `long` is replaced by the nearest bound. -/
def strtol_saturate (v : Int) : Int :=
  if v > LONG_MAX then LONG_MAX else if v < LONG_MIN then LONG_MIN else v

/-- Conversion of a `long` to a 32-bit `int`: the low 32 bits, read in two's complement. -/
def long_to_int (v : Int) : Int :=
  (v + 2147483648) % 4294967296 - 2147483648

/-- C library `strtol(s, NULL, 10)`: skip leading white space, read an optional sign and
the longest run of decimal digits (no digits give `0`), saturate to the range of `long`. -/
def strtol (s : String) : Int :=
  strtol_saturate
    (match s.toList.dropWhile isspace with
      | '-' :: rest => - atoi_digits rest 0
      | '+' :: rest => atoi_digits rest 0
      | cs => atoi_digits cs 0)

/-- C library `atoi` as the GNU C library implements it: `(int) strtol(s, NULL, 10)`. -/
def atoi (s : String) : Int :=
  long_to_int (strtol s)

/-- Read an integer variable (`get_env_int`). -/
def get_env_int (env : Env) (name : String) (default_val : Int) : Int :=
  match env name with
  | none => default_val
  | some s => if s.toList = [] then default_val else atoi s

/-- The fixed reference sequence (`FIXED_RNG_SEQUENCE`). -/
def FIXED_RNG_SEQUENCE : List UInt8 :=
  [0xDE, 0xAD, 0xBE, 0xEF, 0x01, 0x02, 0x03, 0x04,
   0xCA, 0xFE, 0xBA, 0xBE, 0xFF, 0x00, 0xAA, 0x55,
   0x12, 0x34, 0x56, 0x78, 0x9A, 0xBC, 0xDE, 0xF0,
   0x0A, 0x0B, 0x0C, 0x0D, 0x0E, 0x0F, 0x1A, 0x1B,
   0xCC, 0x33, 0xDD, 0x44, 0xEE, 0x55, 0xFF, 0x66,
   0x88, 0x99, 0xAA, 0xBB, 0xCC, 0xDD, 0xEE, 0xFF,
   0x77, 0x77, 0x77, 0x77, 0x88, 0x88, 0x88, 0x88,
   0x66, 0x66, 0x66, 0x66, 0x55, 0x55, 0x55, 0x55]

/-- Initialise the fault model from the environment and seed the generator
(`fault_init_from_env`). The `int` read for the granularity is converted to `size_t`,
the one read for the seed to `unsigned int`. -/
def fault_init_from_env {R : Type} (srand : Nat → R) (env : Env) : FaultModel × R :=
  let type : FaultType :=
    match env "MLDSA_FAULT_TYPE" with
    | none => .FAULT_NONE
    | some t =>
      let t0 := FaultType.FAULT_NONE
      let t1 := if t = "SKIP" then .FAULT_INSTRUCTION_SKIP else t0
      let t2 := if t = "FLIP" then .FAULT_BIT_FLIP else t1
      let t3 := if t = "PARTIAL" then .FAULT_PARTIAL_ZERO else t2
      if t = "FIXED" then .FAULT_FIXED_RNG else t3
  let prob_percent := get_env_int env "MLDSA_FAULT_PROB" 0
  let granularity := (get_env_int env "MLDSA_FAULT_GRAN" 1 % (SIZE_MOD : Int)).toNat
  let seed := (get_env_int env "MLDSA_FAULT_SEED" 12345 % (2 ^ 32 : Int)).toNat
  let enabled : Int := if type ≠ .FAULT_NONE ∧ prob_percent > 0 then 1 else 0
  ({ type := type, prob_percent := prob_percent, granularity := granularity,
     seed := seed, enabled := enabled }, srand seed)

/-- Probability trigger (`fault_trigger_now`): no draw when disabled, otherwise one draw. -/
def fault_trigger_now {R : Type} (rand : R → Nat × R) (m : FaultModel) (r : R) : Int × R :=
  if m.enabled = 0 then (0, r)
  else
    let d := rand r
    (if ((d.1 % 100 : Nat) : Int) < m.prob_percent then 1 else 0, d.2)

/-- Skip query (`fault_should_skip_rng`). -/
def fault_should_skip_rng {R : Type} (rand : R → Nat × R) (m : FaultModel) (r : R) : Int × R :=
  if m.type ≠ .FAULT_INSTRUCTION_SKIP then (0, r) else fault_trigger_now rand m r

/-- The span `(start_idx, g)` that the `FAULT_PARTIAL_ZERO` branch of `fault_apply`
passes to `memset`, for a configured granularity and a buffer length. -/
def partial_zero_span (granularity len : Nat) : Nat × Nat :=
  let g := granularity
  let start_idx := len / 2
  let g := if g > len then len else g
  let g := if (start_idx + g) % SIZE_MOD > len then len - start_idx else g
  (start_idx, g)

/-- Apply a data fault (`fault_apply`) to the buffer `(buf, len)`, `len` being the length
of the list. Returns the buffer and the generator state after the call; `none` when a
write leaves the buffer. -/
def fault_apply {R : Type} (rand : R → Nat × R) (m : FaultModel) (r : R)
    (buf : Option (List UInt8)) : Option (Option (List UInt8) × R) :=
  match buf with
  | none => some (none, r)
  | some b =>
    let len := b.length
    if m.enabled = 0 ∨ len = 0 then some (some b, r)
    else if m.type = .FAULT_INSTRUCTION_SKIP then some (some b, r)
    else
      let t := fault_trigger_now rand m r
      if t.1 = 0 then some (some b, t.2)
      else
        match m.type with
        | .FAULT_BIT_FLIP =>
          let d1 := rand t.2
          let idx := d1.1 % len
          let d2 := rand d1.2
          match b[idx]? with
          | none => none
          | some v =>
            some (some (b.set idx (UInt8.ofNat ((v.toNat ^^^ (1 <<< (d2.1 % 8))) % 256))), d2.2)
        | .FAULT_PARTIAL_ZERO =>
          let span := partial_zero_span m.granularity len
          match memset b span.1 0 span.2 with
          | none => none
          | some b1 => some (some b1, t.2)
        | .FAULT_FIXED_RNG =>
          let bytes_to_copy := if len < 64 then len else 64
          match memcpy b FIXED_RNG_SEQUENCE bytes_to_copy with
          | none => none
          | some b1 => some (some b1, t.2)
        | _ => some (some b, t.2)

/-- Contents of the first scratch buffer after the first execution of the operation. -/
def scratch1 {W : Type} (op : CriticalOp2 W) (out_len : Nat) (inp : List UInt8) (in_len : Nat)
    (work_buf1 : List UInt8) (w : W) : List UInt8 :=
  (op w work_buf1 out_len inp in_len).2

/-- Contents of the second scratch buffer after the second execution of the operation,
which starts from the world left by the first execution and the random delay. -/
def scratch2 {W : Type} (rand : W → Nat × W) (op : CriticalOp2 W) (out_len : Nat)
    (inp : List UInt8) (in_len : Nat) (work_buf1 work_buf2 : List UInt8) (w : W) : List UInt8 :=
  (op (defense_random_delay rand (op w work_buf1 out_len inp in_len).1)
    work_buf2 out_len inp in_len).2

/-- An operation writes through its `out` pointer in place: the buffer keeps its size. -/
def InPlace {W : Type} (op : CriticalOp2 W) : Prop :=
  ∀ (w : W) (out : List UInt8) (out_len : Nat) (inp : List UInt8) (in_len : Nat),
    (op w out out_len inp in_len).2.length = out.length

/-- A sample operation: fills the first `out_len` bytes of `out` with the low byte of a
counter kept in the world and increments the counter. -/
def sample_counter_op : CriticalOp2 Nat := fun w out out_len _ _ =>
  (w + 1, List.replicate (min out_len out.length) (UInt8.ofNat w) ++ out.drop out_len)

/-- A sample operation: copies the input into `out`, leaving the world alone. -/
def sample_copy_op : CriticalOp2 Nat := fun w out out_len inp _ =>
  (w, inp.take (min out_len out.length) ++ out.drop (min (min out_len out.length) inp.length))

/-- A sample generator (linear congruential). -/
def sample_rand (r : Nat) : Nat × Nat :=
  ((r * 1103515245 + 12345) % 2147483648, (r * 1103515245 + 12345) % 2147483648)

/-- A sample configuration at level `DEFENSE_FULL` with the weak policy. -/
def sample_cfg_full : DefenseConfig :=
  { level := .DEFENSE_FULL, integrity := ⟨strategy_xor_checksum, 1, "WEAK_XOR"⟩,
    enable_self_verify := 1, enable_duplication := 1 }

/-- A sample configuration at level `DEFENSE_LIGHT` with the weak policy. -/
def sample_cfg_light : DefenseConfig :=
  { level := .DEFENSE_LIGHT, integrity := ⟨strategy_xor_checksum, 1, "WEAK_XOR"⟩,
    enable_self_verify := 1, enable_duplication := 0 }

/-- A sample seeding function for `sample_rand`. -/
def sample_srand (seed : Nat) : Nat := seed

/-- The environment of the end-to-end scenario: `PARTIAL`, probability 100,
granularity 8, seed 1. -/
def env_partial_scenario : Env := fun name =>
  if name = "MLDSA_FAULT_TYPE" then some "PARTIAL"
  else if name = "MLDSA_FAULT_PROB" then some "100"
  else if name = "MLDSA_FAULT_GRAN" then some "8"
  else if name = "MLDSA_FAULT_SEED" then some "1"
  else none

/-- An environment with a negative granularity: `PARTIAL`, probability 100,
granularity `-1`. -/
def env_negative_gran : Env := fun name =>
  if name = "MLDSA_FAULT_TYPE" then some "PARTIAL"
  else if name = "MLDSA_FAULT_PROB" then some "100"
  else if name = "MLDSA_FAULT_GRAN" then some "-1"
  else none

/-- An environment selecting `FIXED` with probability 100. -/
def env_fixed : Env := fun name =>
  if name = "MLDSA_FAULT_TYPE" then some "FIXED"
  else if name = "MLDSA_FAULT_PROB" then some "100"
  else none

/-- A sample 10-byte buffer. -/
def sample_buf10 : List UInt8 := [1, 2, 3, 4, 5, 6, 7, 8, 9, 10]

/-- A sample configuration at level `DEFENSE_FULL` with the strong policy. -/
def sample_cfg_full_strong : DefenseConfig :=
  { level := .DEFENSE_FULL, integrity := ⟨strategy_fnv1a_checksum, 4, "STRONG_FNV"⟩,
    enable_self_verify := 1, enable_duplication := 1 }

/-- A sample memory: every byte holds the low byte of its address. -/
def sample_mem : Mem := fun a => UInt8.ofNat a

/-- A sample memory: zero everywhere except for the byte `1` at addresses 4096 and 4097. -/
def sample_mem_sparse : Mem := fun a => if a = 4096 ∨ a = 4097 then 1 else 0

/-- Number of zero bytes currently stored in a region. -/
def region_zero_count (mem : Mem) (addr len : Nat) : Nat :=
  (read_region mem addr len).count 0

/-- A sample snapshot of the 64-byte region at address 4096 with stored digest byte 7. -/
def sample_snapshot : StateSnapshot :=
  { hash := 7 :: List.replicate 31 0, addr := 4096, len := 64, cfg := some sample_cfg_full }

/-- Specification of the weak digest byte, following the spec's words: the XOR of all
input bytes, `0` for the empty input. -/
def spec_xor_all : List UInt8 → Nat
  | [] => 0
  | b :: bs => b.toNat ^^^ spec_xor_all bs

/-- Specification of 32-bit FNV-1a continued from accumulator `h`, following the spec's
words: for each byte in order `h := ((h XOR byte) * 16777619) mod 2 ^ 32`. -/
def spec_fnv1a32_from (h : Nat) : List UInt8 → Nat
  | [] => h
  | b :: bs => spec_fnv1a32_from (((h ^^^ b.toNat) * 16777619) % 2 ^ 32) bs

/-- Specification of 32-bit FNV-1a: the accumulator starts at the offset basis 2166136261. -/
def spec_fnv1a32 (data : List UInt8) : Nat :=
  spec_fnv1a32_from 2166136261 data

/-- Every character of the list is a decimal digit. -/
def all_digits : List Char → Bool
  | [] => true
  | c :: cs => (decide (48 ≤ c.toNat) && decide (c.toNat ≤ 57)) && all_digits cs

/-- The text is a decimal integer: an optional sign followed by one or more decimal
digits and nothing else. A value that is not one is malformed for a numeric variable. -/
def is_decimal_integer (s : String) : Bool :=
  match s.toList with
  | [] => false
  | ['-'] => false
  | ['+'] => false
  | '-' :: rest => all_digits rest
  | '+' :: rest => all_digits rest
  | cs => all_digits cs

/-- An environment whose numeric variables hold text that is not a number and whose
keyword variables hold unknown keywords. -/
def env_malformed : Env := fun name =>
  if name = "MLDSA_FAULT_TYPE" then some "BOGUS"
  else if name = "MLDSA_FAULT_PROB" then some "abc"
  else if name = "MLDSA_FAULT_GRAN" then some "abc"
  else if name = "MLDSA_FAULT_SEED" then some "abc"
  else if name = "MLDSA_DEFENSE_LEVEL" then some "HIGH"
  else if name = "MLDSA_INTEGRITY_POLICY" then some "MEDIUM"
  else none

/-- An environment with a probability above 100. -/
def env_prob_150 : Env := fun name =>
  if name = "MLDSA_FAULT_TYPE" then some "FLIP"
  else if name = "MLDSA_FAULT_PROB" then some "150"
  else none

/-- An environment with a negative probability. -/
def env_prob_negative : Env := fun name =>
  if name = "MLDSA_FAULT_TYPE" then some "FLIP"
  else if name = "MLDSA_FAULT_PROB" then some "-5"
  else none

/-- The empty environment: no variable is set. -/
def env_empty : Env := fun _ => none

/-- Two byte sequences of equal length that differ in exactly one position. -/
def DifferAtOne (a b : List UInt8) : Prop :=
  a.length = b.length ∧
    ∃ i, i < a.length ∧ a[i]? ≠ b[i]? ∧ ∀ j, j ≠ i → a[j]? = b[j]?

/-- The configuration carries one of the two integrity policies of `defense_policy.h`. -/
def WeakOrStrong (cfg : DefenseConfig) : Prop :=
  (cfg.integrity.checksum_fn = strategy_xor_checksum ∧ cfg.integrity.hash_len = 1) ∨
  (cfg.integrity.checksum_fn = strategy_fnv1a_checksum ∧ cfg.integrity.hash_len = 4)

/-- The sample memory `sample_mem` with bit 4 of the byte at address 4097 toggled. -/
def sample_mem_flipped : Mem := fun a => if a = 4097 then 17 else UInt8.ofNat a

/-- Value of a run of decimal digits in positional notation: the first digit weighs
`10 ^ (number of following digits)`. -/
def decimal_value : List Char → Int
  | [] => 0
  | c :: cs => ((c.toNat : Int) - 48) * 10 ^ cs.length + decimal_value cs

/-- The text `cs` reads as leading white space `ws`, an optional sign `sign`, the longest
run of decimal digits `digits` (possibly empty) and a rest that does not continue the
number. -/
def NumericParse (cs ws sign digits rest : List Char) : Prop :=
  cs = ws ++ sign ++ digits ++ rest ∧
  (∀ c ∈ ws, isspace c = true) ∧
  (sign = [] ∨ sign = ['-'] ∨ sign = ['+']) ∧
  (∀ c ∈ digits, isdigit c = true) ∧
  (∀ c, rest.head? = some c → isdigit c = false) ∧
  (sign = [] → digits = [] →
    ∀ c, rest.head? = some c → isspace c = false ∧ c ≠ '-' ∧ c ≠ '+')

/-- The number a parsed text denotes: the digit run's value, negated after a minus sign;
`0` when the run is empty. -/
def parsed_value (sign digits : List Char) : Int :=
  if sign = ['-'] then - decimal_value digits else decimal_value digits

/-- An environment whose numeric variables hold a number followed by other text, a sign
without digits, and white space without digits. -/
def env_numeric_prefix : Env := fun name =>
  if name = "MLDSA_FAULT_TYPE" then some "FLIP"
  else if name = "MLDSA_FAULT_PROB" then some "12abc"
  else if name = "MLDSA_FAULT_GRAN" then some "-abc"
  else if name = "MLDSA_FAULT_SEED" then some " abc"
  else none

/-- An environment whose numeric variables exceed the range of `int`. -/
def env_prob_wrap : Env := fun name =>
  if name = "MLDSA_FAULT_TYPE" then some "FLIP"
  else if name = "MLDSA_FAULT_PROB" then some "2147483648"
  else if name = "MLDSA_FAULT_GRAN" then some "4294967297"
  else if name = "MLDSA_FAULT_SEED" then some "99999999999999999999"
  else none

/-! ## Lemmas on bytes and buffers -/

theorem nat_lor_eq_zero (a b : Nat) : a ||| b = 0 ↔ a = 0 ∧ b = 0 := by
  constructor
  · intro h
    constructor
    · apply Nat.eq_of_testBit_eq
      intro i
      have := congrArg (fun x => x.testBit i) h
      simp [Nat.testBit_or] at this
      simp [this.1]
    · apply Nat.eq_of_testBit_eq
      intro i
      have := congrArg (fun x => x.testBit i) h
      simp [Nat.testBit_or] at this
      simp [this.2]
  · rintro ⟨rfl, rfl⟩; rfl

theorem byte_xor_lt (a b : UInt8) : (a.toNat ^^^ b.toNat) % 256 < 256 :=
  Nat.mod_lt _ (by decide)

theorem byte_xor_eq_zero (a b : UInt8) : (a.toNat ^^^ b.toNat) % 256 = 0 ↔ a = b := by
  have ha : a.toNat < 2 ^ 8 := UInt8.toNat_lt_size a
  have hb : b.toNat < 2 ^ 8 := UInt8.toNat_lt_size b
  have hx : a.toNat ^^^ b.toNat < 2 ^ 8 := Nat.xor_lt_two_pow ha hb
  rw [Nat.mod_eq_of_lt (by simpa using hx), Nat.xor_eq_zero]
  exact ⟨fun h => UInt8.ext_iff.mpr h, fun h => by rw [h]⟩

theorem nat_lor_lt_256 (a b : Nat) (ha : a < 256) (hb : b < 256) : a ||| b < 256 := by
  have : a ||| b < 2 ^ 8 := Nat.or_lt_two_pow (by simpa using ha) (by simpa using hb)
  simpa using this

theorem getElem?_splice (buf : List UInt8) (off : Nat) (c : UInt8) (n : Nat)
    (h : off + n ≤ buf.length) (i : Nat) :
    (buf.take off ++ List.replicate n c ++ buf.drop (off + n))[i]? =
      if off ≤ i ∧ i < off + n then some c else buf[i]? := by
  have hlt : (List.take off buf).length = off := by simp; omega
  by_cases h1 : i < off
  · have hc : ¬ (off ≤ i ∧ i < off + n) := by omega
    rw [if_neg hc, List.append_assoc, List.getElem?_append_left (by omega),
      List.getElem?_take_of_lt h1]
  · by_cases h2 : i < off + n
    · have hc : off ≤ i ∧ i < off + n := by omega
      rw [if_pos hc, List.append_assoc, List.getElem?_append_right (by omega), hlt,
        List.getElem?_append_left (by simp; omega), List.getElem?_replicate]
      simp; omega
    · have hc : ¬ (off ≤ i ∧ i < off + n) := by omega
      rw [if_neg hc, List.getElem?_append_right (by simp; omega), List.getElem?_drop]
      congr 1
      simp
      omega

theorem getElem?_overlay (dst src : List UInt8) (n : Nat) (hs : n ≤ src.length) (i : Nat) :
    (src.take n ++ dst.drop n)[i]? = if i < n then src[i]? else dst[i]? := by
  have hlt : (List.take n src).length = n := by simp; omega
  by_cases h1 : i < n
  · rw [if_pos h1, List.getElem?_append_left (by omega), List.getElem?_take_of_lt h1]
  · rw [if_neg h1, List.getElem?_append_right (by omega), List.getElem?_drop, hlt]
    congr 1; omega

/-- An in-bounds `memset` succeeds, keeps the length and writes exactly the span. -/
theorem memset_spec (buf : List UInt8) (off : Nat) (c : UInt8) (n : Nat)
    (h : off + n ≤ buf.length) :
    ∃ z, memset buf off c n = some z ∧ z.length = buf.length ∧
      ∀ i, z[i]? = if off ≤ i ∧ i < off + n then some c else buf[i]? := by
  refine ⟨buf.take off ++ List.replicate n c ++ buf.drop (off + n), ?_, ?_, ?_⟩
  · simp [memset, h]
  · simp; omega
  · exact getElem?_splice buf off c n h

/-- An in-bounds `memcpy` succeeds, keeps the length and writes exactly the first `n` bytes. -/
theorem memcpy_spec (dst src : List UInt8) (n : Nat) (hd : n ≤ dst.length)
    (hs : n ≤ src.length) :
    ∃ z, memcpy dst src n = some z ∧ z.length = dst.length ∧
      ∀ i, z[i]? = if i < n then src[i]? else dst[i]? := by
  refine ⟨src.take n ++ dst.drop n, ?_, ?_, ?_⟩
  · simp [memcpy, hd, hs]
  · simp; omega
  · exact getElem?_overlay dst src n hs

/-- The comparison loop never short-circuits and ends with `0` exactly when the
accumulator started at `0` and the first `n` bytes agree. -/
theorem diff_accumulate_spec :
    ∀ (n : Nat) (a b : List UInt8) (d0 : Nat), d0 < 256 → n ≤ a.length → n ≤ b.length →
      ∃ d, diff_accumulate n a b d0 = some d ∧ (d = 0 ↔ d0 = 0 ∧ a.take n = b.take n) := by
  intro n
  induction n with
  | zero =>
    intro a b d0 _ _ _
    exact ⟨d0, by simp [diff_accumulate], by simp⟩
  | succ k ih =>
    intro a b d0 hd ha hb
    cases a with
    | nil => simp at ha
    | cons x as =>
      cases b with
      | nil => simp at hb
      | cons y bs =>
        have hx := byte_xor_lt x y
        have hlt := nat_lor_lt_256 d0 _ hd hx
        have hmod : (d0 ||| (x.toNat ^^^ y.toNat) % 256) % 256
            = d0 ||| (x.toNat ^^^ y.toNat) % 256 := Nat.mod_eq_of_lt hlt
        obtain ⟨d, hd1, hd2⟩ := ih as bs ((d0 ||| (x.toNat ^^^ y.toNat) % 256) % 256)
          (Nat.mod_lt _ (by decide)) (by simpa using ha) (by simpa using hb)
        refine ⟨d, by simpa [diff_accumulate] using hd1, ?_⟩
        rw [hd2, hmod, nat_lor_eq_zero, byte_xor_eq_zero]
        simp only [List.take_succ_cons, List.cons.injEq]
        tauto

theorem take_ne_of_getElem?_ne (a b : List UInt8) (n i : Nat) (hi : i < n)
    (h : a[i]? ≠ b[i]?) : a.take n ≠ b.take n := by
  intro heq
  apply h
  have := congrArg (fun l => l[i]?) heq
  simpa [List.getElem?_take_of_lt hi] using this

/-! ## DuplicationGuard -/

/-- Both scratch buffers are wiped by the two trailing `memset` calls. -/
theorem wipe_both (b1 b2 : List UInt8) (n : Nat) (h1 : n ≤ b1.length) (h2 : n ≤ b2.length) :
    ∃ z1 z2, memset b1 0 0 n = some z1 ∧ memset b2 0 0 n = some z2 ∧
      (∀ i, i < n → z1[i]? = some 0) ∧ (∀ i, i < n → z2[i]? = some 0) := by
  obtain ⟨z1, e1, -, p1⟩ := memset_spec b1 0 0 n (by omega)
  obtain ⟨z2, e2, -, p2⟩ := memset_spec b2 0 0 n (by omega)
  refine ⟨z1, z2, e1, e2, ?_, ?_⟩
  · intro i hi
    rw [p1 i, if_pos (by omega)]
  · intro i hi
    rw [p2 i, if_pos (by omega)]

/-- C1: with duplication enabled, if the scratch contents written by the two executions
differ in one of the first `n` bytes, the guard returns `0`, the output buffer keeps its
pre-call contents and the first `n` bytes of both scratch buffers are zero. -/
theorem duplicate_check_mismatch {W : Type} (rand : W → Nat × W) (cfg : DefenseConfig)
    (op : CriticalOp2 W) (out : List UInt8) (n : Nat) (inp : List UInt8) (in_len : Nat)
    (wb1 wb2 : List UInt8) (w : W)
    (hdup : cfg.enable_duplication ≠ 0) (hop : InPlace op)
    (hcap1 : n ≤ wb1.length) (hcap2 : n ≤ wb2.length)
    (hdiff : ∃ i, i < n ∧
      (scratch1 op n inp in_len wb1 w)[i]? ≠ (scratch2 rand op n inp in_len wb1 wb2 w)[i]?) :
    ∃ st, defense_duplicate_check_no_malloc rand (some cfg) (some op) (some out) n inp in_len
        wb1 wb2 w = some (0, st) ∧
      st.real_out = some out ∧
      (∀ i, i < n → st.work_buf1[i]? = some 0) ∧
      (∀ i, i < n → st.work_buf2[i]? = some 0) := by
  obtain ⟨i, hi, hne⟩ := hdiff
  have hl1 : n ≤ (op w wb1 n inp in_len).2.length := by rw [hop]; exact hcap1
  have hl2 : n ≤ (op (defense_random_delay rand (op w wb1 n inp in_len).1)
      wb2 n inp in_len).2.length := by rw [hop]; exact hcap2
  obtain ⟨d, hd, hz⟩ := diff_accumulate_spec n _ _ 0 (by decide) hl1 hl2
  have hd0 : d ≠ 0 := by
    intro h0
    exact take_ne_of_getElem?_ne _ _ n i hi hne (hz.mp h0).2
  obtain ⟨z1, z2, e1, e2, p1, p2⟩ := wipe_both _ _ n hl1 hl2
  refine ⟨⟨(op (defense_random_delay rand (op w wb1 n inp in_len).1) wb2 n inp in_len).1, some out, z1, z2⟩, ?_, rfl, p1, p2⟩
  simp only [defense_duplicate_check_no_malloc, if_neg hdup, hd, e1, e2]
  simp [hd0]

/-- C2: with duplication enabled, if the two executions write the same first `n` bytes,
the guard returns `1`, the first `n` bytes of the output buffer are that output (the
rest of the output buffer is untouched) and the first `n` bytes of both scratch
buffers are zero. -/
theorem duplicate_check_match {W : Type} (rand : W → Nat × W) (cfg : DefenseConfig)
    (op : CriticalOp2 W) (out : List UInt8) (n : Nat) (inp : List UInt8) (in_len : Nat)
    (wb1 wb2 : List UInt8) (w : W)
    (hdup : cfg.enable_duplication ≠ 0) (hop : InPlace op)
    (hcap0 : n ≤ out.length) (hcap1 : n ≤ wb1.length) (hcap2 : n ≤ wb2.length)
    (hsame : (scratch1 op n inp in_len wb1 w).take n
      = (scratch2 rand op n inp in_len wb1 wb2 w).take n) :
    ∃ st o, defense_duplicate_check_no_malloc rand (some cfg) (some op) (some out) n inp in_len
        wb1 wb2 w = some (1, st) ∧
      st.real_out = some o ∧ o.length = out.length ∧
      (∀ i, i < n → o[i]? = (scratch1 op n inp in_len wb1 w)[i]?) ∧
      (∀ i, n ≤ i → o[i]? = out[i]?) ∧
      (∀ i, i < n → st.work_buf1[i]? = some 0) ∧
      (∀ i, i < n → st.work_buf2[i]? = some 0) := by
  have hl1 : n ≤ (op w wb1 n inp in_len).2.length := by rw [hop]; exact hcap1
  have hl2 : n ≤ (op (defense_random_delay rand (op w wb1 n inp in_len).1)
      wb2 n inp in_len).2.length := by rw [hop]; exact hcap2
  obtain ⟨d, hd, hz⟩ := diff_accumulate_spec n _ _ 0 (by decide) hl1 hl2
  have hd0 : d = 0 := hz.mpr ⟨rfl, hsame⟩
  obtain ⟨z1, z2, e1, e2, p1, p2⟩ := wipe_both _ _ n hl1 hl2
  obtain ⟨o, eo, lo, po⟩ := memcpy_spec out (op w wb1 n inp in_len).2 n hcap0 hl1
  refine ⟨⟨(op (defense_random_delay rand (op w wb1 n inp in_len).1) wb2 n inp in_len).1, some o, z1, z2⟩, o, ?_, rfl, lo, ?_, ?_, p1, p2⟩
  · simp only [defense_duplicate_check_no_malloc, if_neg hdup, hd, e1, e2, eo]
    simp [hd0]
  · intro i hi
    rw [po i, if_pos hi]
    rfl
  · intro i hi
    rw [po i, if_neg (by omega)]

/-- C3: with duplication disabled and a present output buffer, the guard returns `1`
and leaves exactly the memory that one direct call `op(real_out, out_len, in, in_len)`
leaves: the output buffer and the world are those of the direct call and the scratch
buffers are unchanged. The operation runs exactly once and the guard draws nothing from
the generator: with the instrumented operation the call counter goes up by one and the
generator state is the initial one. -/
theorem duplicate_check_disabled {W R : Type} (rand : W → Nat × W) (rand0 : R → Nat × R)
    (cfg : DefenseConfig) (op : CriticalOp2 W) (out : List UInt8) (n : Nat)
    (inp : List UInt8) (in_len : Nat) (wb1 wb2 : List UInt8) (w : W) (r : R) (k : Nat)
    (hdup : cfg.enable_duplication = 0) :
    defense_duplicate_check_no_malloc rand (some cfg) (some op) (some out) n inp in_len
        wb1 wb2 w
      = some (1, ⟨(op w out n inp in_len).1, some (op w out n inp in_len).2, wb1, wb2⟩) ∧
    defense_duplicate_check_no_malloc (rand_on rand0) (some cfg) (some (counted op)) (some out)
        n inp in_len wb1 wb2 (w, r, k)
      = some (1, ⟨((op w out n inp in_len).1, r, k + 1), some (op w out n inp in_len).2,
          wb1, wb2⟩) := by
  constructor
  · simp [defense_duplicate_check_no_malloc, hdup]
  · simp [defense_duplicate_check_no_malloc, hdup, counted]

theorem sample_counter_op_inPlace : InPlace sample_counter_op := by
  intro w out out_len inp in_len
  simp [sample_counter_op]
  omega

theorem sample_copy_op_inPlace : InPlace sample_copy_op := by
  intro w out out_len inp in_len
  simp [sample_copy_op]

/-- Witness for C1: the counter operation writes different bytes on its two executions. -/
theorem duplicate_check_mismatch_witness :
    ∃ st, defense_duplicate_check_no_malloc sample_rand (some sample_cfg_full)
        (some sample_counter_op) (some [9, 9, 9, 9]) 4 [] 0 [1, 2, 3, 4] [5, 6, 7, 8] 0
        = some (0, st) ∧
      st.real_out = some [9, 9, 9, 9] ∧
      (∀ i, i < 4 → st.work_buf1[i]? = some 0) ∧
      (∀ i, i < 4 → st.work_buf2[i]? = some 0) :=
  duplicate_check_mismatch sample_rand sample_cfg_full sample_counter_op [9, 9, 9, 9] 4 [] 0
    [1, 2, 3, 4] [5, 6, 7, 8] 0 (by decide) sample_counter_op_inPlace (by decide) (by decide)
    ⟨0, by decide, by decide⟩

/-- Witness for C2: the copy operation writes the same bytes on both executions. -/
theorem duplicate_check_match_witness :
    ∃ st o, defense_duplicate_check_no_malloc sample_rand (some sample_cfg_full)
        (some sample_copy_op) (some [9, 9, 9, 9, 9]) 4 [10, 20, 30, 40] 4
        [1, 2, 3, 4] [5, 6, 7, 8] 0 = some (1, st) ∧
      st.real_out = some o ∧ o.length = [(9 : UInt8), 9, 9, 9, 9].length ∧
      (∀ i, i < 4 →
        o[i]? = (scratch1 sample_copy_op 4 [10, 20, 30, 40] 4 [1, 2, 3, 4] 0)[i]?) ∧
      (∀ i, 4 ≤ i → o[i]? = [(9 : UInt8), 9, 9, 9, 9][i]?) ∧
      (∀ i, i < 4 → st.work_buf1[i]? = some 0) ∧
      (∀ i, i < 4 → st.work_buf2[i]? = some 0) :=
  duplicate_check_match sample_rand sample_cfg_full sample_copy_op [9, 9, 9, 9, 9] 4
    [10, 20, 30, 40] 4 [1, 2, 3, 4] [5, 6, 7, 8] 0 (by decide) sample_copy_op_inPlace
    (by decide) (by decide) (by decide) (by decide)

/-- Witness for C3: the counter operation under a configuration without duplication. -/
theorem duplicate_check_disabled_witness :
    defense_duplicate_check_no_malloc sample_rand (some sample_cfg_light)
        (some sample_counter_op) (some [9, 9, 9, 9]) 4 [] 0 [1, 2, 3, 4] [5, 6, 7, 8] 7
      = some (1, ⟨8, some [7, 7, 7, 7], [1, 2, 3, 4], [5, 6, 7, 8]⟩) ∧
    defense_duplicate_check_no_malloc (rand_on sample_rand) (some sample_cfg_light)
        (some (counted sample_counter_op)) (some [9, 9, 9, 9]) 4 [] 0 [1, 2, 3, 4]
        [5, 6, 7, 8] (7, 1, 0)
      = some (1, ⟨(8, 1, 1), some [7, 7, 7, 7], [1, 2, 3, 4], [5, 6, 7, 8]⟩) :=
  duplicate_check_disabled sample_rand sample_rand sample_cfg_light sample_counter_op
    [9, 9, 9, 9] 4 [] 0 [1, 2, 3, 4] [5, 6, 7, 8] 7 1 0 (by decide)

/-! ## FaultInjector -/

/-- The model resolved from the end-to-end scenario environment. -/
theorem init_partial_scenario {R : Type} (srand : Nat → R) :
    (fault_init_from_env srand env_partial_scenario).1
      = ⟨.FAULT_PARTIAL_ZERO, 100, 8, 1, 1⟩ := by
  rfl

/-- A granularity of `-1` in the environment becomes `2 ^ 64 - 1` bytes. -/
theorem init_negative_gran {R : Type} (srand : Nat → R) :
    (fault_init_from_env srand env_negative_gran).1
      = ⟨.FAULT_PARTIAL_ZERO, 100, 18446744073709551615, 12345, 1⟩ := by
  rfl

/-- Without overflow of `start_idx + g` the span is the midpoint and the clamped length. -/
theorem partial_zero_span_eq (g len : Nat) (hmax : len < 2 ^ 63) :
    partial_zero_span g len = (len / 2, min g (len - len / 2)) := by
  have h63 : (2 : Nat) ^ 63 = 9223372036854775808 := by norm_num
  have h64 : (2 : Nat) ^ 64 = 18446744073709551616 := by norm_num
  rw [h63] at hmax
  have hmod : ∀ x, x ≤ len → (len / 2 + x) % SIZE_MOD = len / 2 + x := by
    intro x hx
    apply Nat.mod_eq_of_lt
    rw [SIZE_MOD, h64]
    omega
  unfold partial_zero_span
  dsimp only
  by_cases h1 : g > len
  · rw [if_pos h1, hmod len (le_refl _)]
    by_cases h2 : len / 2 + len > len
    · rw [if_pos h2]
      congr 1
      omega
    · rw [if_neg h2]
      congr 1
      omega
  · rw [if_neg h1, hmod g (by omega)]
    by_cases h2 : len / 2 + g > len
    · rw [if_pos h2]
      congr 1
      omega
    · rw [if_neg h2]
      congr 1
      omega

/-- The trigger fires when the model is enabled and the draw is below the probability. -/
theorem fault_trigger_now_fired {R : Type} (rand : R → Nat × R) (m : FaultModel) (r : R)
    (hen : m.enabled ≠ 0) (hfire : (((rand r).1 % 100 : Nat) : Int) < m.prob_percent) :
    fault_trigger_now rand m r = (1, (rand r).2) := by
  simp only [fault_trigger_now, if_neg hen, if_pos hfire]

/-- A fired `FAULT_PARTIAL_ZERO` zeroes exactly the clamped span at the midpoint. -/
theorem fault_apply_partial_fired {R : Type} (rand : R → Nat × R) (m : FaultModel) (r : R)
    (b : List UInt8) (hen : m.enabled ≠ 0) (hty : m.type = .FAULT_PARTIAL_ZERO)
    (hfire : (((rand r).1 % 100 : Nat) : Int) < m.prob_percent)
    (hlen : 1 ≤ b.length) (hmax : b.length < 2 ^ 63) :
    ∃ b1, fault_apply rand m r (some b) = some (some b1, (rand r).2) ∧
      b1.length = b.length ∧
      ∀ i, b1[i]? =
        if b.length / 2 ≤ i ∧ i < b.length / 2 + min m.granularity (b.length - b.length / 2)
        then some 0 else b[i]? := by
  obtain ⟨z, ez, lz, pz⟩ := memset_spec b (b.length / 2) 0
    (min m.granularity (b.length - b.length / 2)) (by omega)
  have hne : b.length ≠ 0 := by omega
  refine ⟨z, ?_, lz, pz⟩
  simp only [fault_apply, hen, hne, hty, fault_trigger_now_fired rand m r hen hfire,
    partial_zero_span_eq _ _ hmax, ez]
  simp

/-- A fired `FAULT_FIXED_RNG` overwrites the first `min len 64` bytes with the reference
sequence and nothing else. -/
theorem fault_apply_fixed_fired {R : Type} (rand : R → Nat × R) (m : FaultModel) (r : R)
    (b : List UInt8) (hen : m.enabled ≠ 0) (hty : m.type = .FAULT_FIXED_RNG)
    (hfire : (((rand r).1 % 100 : Nat) : Int) < m.prob_percent)
    (hlen : 1 ≤ b.length) :
    fault_apply rand m r (some b)
      = some (some (FIXED_RNG_SEQUENCE.take (min b.length 64) ++ b.drop (min b.length 64)),
          (rand r).2) := by
  have hne : b.length ≠ 0 := by omega
  have hmin : (if b.length < 64 then b.length else 64) = min b.length 64 := by
    split_ifs <;> omega
  have hcopy : memcpy b FIXED_RNG_SEQUENCE (min b.length 64)
      = some (FIXED_RNG_SEQUENCE.take (min b.length 64) ++ b.drop (min b.length 64)) := by
    have h64 : FIXED_RNG_SEQUENCE.length = 64 := by decide
    simp [memcpy, h64]
  simp only [fault_apply, hen, hne, hty, fault_trigger_now_fired rand m r hen hfire, hmin, hcopy]
  simp

/-- A fired `FAULT_BIT_FLIP` xors one byte, at index `draw % len`, with `1 << (draw % 8)`,
using the two draws that follow the trigger draw. -/
theorem fault_apply_flip_fired {R : Type} (rand : R → Nat × R) (m : FaultModel) (r : R)
    (b : List UInt8) (hen : m.enabled ≠ 0) (hty : m.type = .FAULT_BIT_FLIP)
    (hfire : (((rand r).1 % 100 : Nat) : Int) < m.prob_percent)
    (hlen : 1 ≤ b.length) :
    ∃ v, b[(rand (rand r).2).1 % b.length]? = some v ∧
      fault_apply rand m r (some b)
        = some (some (b.set ((rand (rand r).2).1 % b.length)
            (UInt8.ofNat ((v.toNat ^^^ (1 <<< ((rand (rand (rand r).2).2).1 % 8))) % 256))),
          (rand (rand (rand r).2).2).2) := by
  have hne : b.length ≠ 0 := by omega
  have hidx : (rand (rand r).2).1 % b.length < b.length := Nat.mod_lt _ (by omega)
  refine ⟨b[(rand (rand r).2).1 % b.length], List.getElem?_eq_getElem hidx, ?_⟩
  simp only [fault_apply, hen, hne, hty, fault_trigger_now_fired rand m r hen hfire,
    List.getElem?_eq_getElem hidx]
  simp

/-- For every model and generator, `fault_apply` stays inside a present buffer and keeps
its length. -/
theorem fault_apply_length {R : Type} (rand : R → Nat × R) (m : FaultModel) (r : R)
    (b : List UInt8) (hmax : b.length < 2 ^ 63) :
    ∃ b1 r1, fault_apply rand m r (some b) = some (some b1, r1) ∧ b1.length = b.length := by
  by_cases hg : m.enabled = 0 ∨ b.length = 0
  · exact ⟨b, r, by simp only [fault_apply, if_pos hg], rfl⟩
  by_cases hs : m.type = .FAULT_INSTRUCTION_SKIP
  · exact ⟨b, r, by simp only [fault_apply, if_neg hg, if_pos hs], rfl⟩
  by_cases ht : (fault_trigger_now rand m r).1 = 0
  · exact ⟨b, (fault_trigger_now rand m r).2,
      by simp only [fault_apply, if_neg hg, if_neg hs, if_pos ht], rfl⟩
  have hne : b.length ≠ 0 := fun h => hg (Or.inr h)
  have hpos : 0 < b.length := Nat.pos_of_ne_zero hne
  cases hty : m.type with
  | FAULT_NONE =>
    refine ⟨b, (fault_trigger_now rand m r).2, ?_, rfl⟩
    simp only [fault_apply, if_neg hg, if_neg ht, hty]
    rfl
  | FAULT_INSTRUCTION_SKIP => exact absurd hty hs
  | FAULT_BIT_FLIP =>
    have hidx : (rand (fault_trigger_now rand m r).2).1 % b.length < b.length :=
      Nat.mod_lt _ hpos
    simp only [fault_apply, if_neg hg, if_neg hs, if_neg ht, hty,
      List.getElem?_eq_getElem hidx]
    exact ⟨_, _, rfl, by simp⟩
  | FAULT_PARTIAL_ZERO =>
    obtain ⟨z, ez, lz, -⟩ := memset_spec b (b.length / 2) 0
      (min m.granularity (b.length - b.length / 2)) (by omega)
    simp only [fault_apply, if_neg hg, if_neg hs, if_neg ht, hty,
      partial_zero_span_eq _ _ hmax, ez]
    exact ⟨_, _, rfl, lz⟩
  | FAULT_FIXED_RNG =>
    have h64 : FIXED_RNG_SEQUENCE.length = 64 := by decide
    obtain ⟨z, ez, lz, -⟩ := memcpy_spec b FIXED_RNG_SEQUENCE
      (if b.length < 64 then b.length else 64) (by split_ifs <;> omega)
      (by rw [h64]; split_ifs <;> omega)
    simp only [fault_apply, if_neg hg, if_neg hs, if_neg ht, hty, ez]
    exact ⟨_, _, rfl, lz⟩

/-- C4: for every buffer length `len` (any length up to the largest object size, `len ≥ 1`
included) and every configured granularity, whether larger than `len`, zero, or a negative
`MLDSA_FAULT_GRAN` converted to `size_t`, the span that the `FAULT_PARTIAL_ZERO` branch of
`fault_apply` passes to `memset` starts at `len / 2` and ends inside the buffer, and
`fault_apply` performs no out-of-bounds access and returns a buffer of the same length. -/
theorem partial_zero_never_past_end {R : Type} (rand : R → Nat × R) (m : FaultModel) (r : R)
    (b : List UInt8) (hmax : b.length < 2 ^ 63) :
    (partial_zero_span m.granularity b.length).1 = b.length / 2 ∧
    (partial_zero_span m.granularity b.length).1 + (partial_zero_span m.granularity b.length).2
      ≤ b.length ∧
    ∃ b1 r1, fault_apply rand m r (some b) = some (some b1, r1) ∧ b1.length = b.length := by
  rw [partial_zero_span_eq _ _ hmax]
  refine ⟨rfl, ?_, fault_apply_length rand m r b hmax⟩
  simp only
  omega

/-- Witness for C4: a 5-byte buffer under a model whose granularity was read from the
environment as `-1`, that is `2 ^ 64 - 1` bytes. -/
theorem partial_zero_never_past_end_witness :
    (fault_init_from_env sample_srand env_negative_gran).1.granularity
      = 18446744073709551615 ∧
    (partial_zero_span (fault_init_from_env sample_srand env_negative_gran).1.granularity
        [(1 : UInt8), 2, 3, 4, 5].length).1 = [(1 : UInt8), 2, 3, 4, 5].length / 2 ∧
    (partial_zero_span (fault_init_from_env sample_srand env_negative_gran).1.granularity
        [(1 : UInt8), 2, 3, 4, 5].length).1
      + (partial_zero_span (fault_init_from_env sample_srand env_negative_gran).1.granularity
        [(1 : UInt8), 2, 3, 4, 5].length).2 ≤ [(1 : UInt8), 2, 3, 4, 5].length ∧
    ∃ b1 r1, fault_apply sample_rand (fault_init_from_env sample_srand env_negative_gran).1
        (fault_init_from_env sample_srand env_negative_gran).2 (some [1, 2, 3, 4, 5])
        = some (some b1, r1) ∧ b1.length = [(1 : UInt8), 2, 3, 4, 5].length :=
  ⟨by decide,
   partial_zero_never_past_end sample_rand
    (fault_init_from_env sample_srand env_negative_gran).1
    (fault_init_from_env sample_srand env_negative_gran).2 [1, 2, 3, 4, 5] (by decide)⟩

/-- C5: when the model is enabled with type `FAULT_PARTIAL_ZERO` and the trigger fires,
`fault_apply` on a buffer of length `len ≥ 1` zeroes exactly the indices
`[len / 2, len / 2 + min g (len - len / 2))` and leaves every other byte as it was. In the
scenario seed 1, `PARTIAL`, probability 100, granularity 8 and length 32, bytes `[16, 24)`
are zero and bytes `[0, 16)` and `[24, 32)` are unchanged. -/
theorem partial_zero_postcondition {R : Type} (srand : Nat → R) (rand : R → Nat × R) :
    (∀ (m : FaultModel) (r : R) (b : List UInt8),
      m.enabled ≠ 0 → m.type = .FAULT_PARTIAL_ZERO →
      (((rand r).1 % 100 : Nat) : Int) < m.prob_percent →
      1 ≤ b.length → b.length < 2 ^ 63 →
      ∃ b1, fault_apply rand m r (some b) = some (some b1, (rand r).2) ∧
        b1.length = b.length ∧
        ∀ i, b1[i]? =
          if b.length / 2 ≤ i ∧ i < b.length / 2 + min m.granularity (b.length - b.length / 2)
          then some 0 else b[i]?) ∧
    (∀ (b : List UInt8), b.length = 32 →
      ∃ b1 r1, fault_apply rand (fault_init_from_env srand env_partial_scenario).1
          (fault_init_from_env srand env_partial_scenario).2 (some b) = some (some b1, r1) ∧
        b1.length = 32 ∧
        ∀ i, b1[i]? = if 16 ≤ i ∧ i < 24 then some 0 else b[i]?) := by
  refine ⟨fun m r b hen hty hfire hlen hmax =>
    fault_apply_partial_fired rand m r b hen hty hfire hlen hmax, ?_⟩
  intro b hb
  have hfire : (((rand (fault_init_from_env srand env_partial_scenario).2).1 % 100 : Nat) : Int)
      < (fault_init_from_env srand env_partial_scenario).1.prob_percent := by
    rw [init_partial_scenario]
    show ((_ % 100 : Nat) : Int) < 100
    omega
  obtain ⟨b1, e1, l1, p1⟩ := fault_apply_partial_fired rand
    (fault_init_from_env srand env_partial_scenario).1
    (fault_init_from_env srand env_partial_scenario).2 b
    (by rw [init_partial_scenario]; decide) (by rw [init_partial_scenario])
    hfire (by omega) (by rw [hb]; norm_num)
  refine ⟨b1, _, e1, by rw [l1, hb], ?_⟩
  intro i
  rw [p1 i, init_partial_scenario, hb]
  norm_num

/-- Witness for C5: a 6-byte buffer with granularity 2 and a draw of 0. -/
theorem partial_zero_postcondition_witness :
    ∃ b1, fault_apply (fun r : Nat => (0, r + 1)) ⟨.FAULT_PARTIAL_ZERO, 50, 2, 1, 1⟩ 0
        (some [1, 2, 3, 4, 5, 6]) = some (some b1, ((fun r : Nat => (0, r + 1)) 0).2) ∧
      b1.length = [(1 : UInt8), 2, 3, 4, 5, 6].length ∧
      ∀ i, b1[i]? =
        if [(1 : UInt8), 2, 3, 4, 5, 6].length / 2 ≤ i ∧
            i < [(1 : UInt8), 2, 3, 4, 5, 6].length / 2
              + min (FaultModel.mk .FAULT_PARTIAL_ZERO 50 2 1 1).granularity
                ([(1 : UInt8), 2, 3, 4, 5, 6].length - [(1 : UInt8), 2, 3, 4, 5, 6].length / 2)
        then some 0 else [(1 : UInt8), 2, 3, 4, 5, 6][i]? :=
  (partial_zero_postcondition sample_srand (fun r : Nat => (0, r + 1))).1
    ⟨.FAULT_PARTIAL_ZERO, 50, 2, 1, 1⟩ 0 [1, 2, 3, 4, 5, 6]
    (by decide) rfl (by decide) (by decide) (by decide)

/-- C6: when the model is enabled with type `FAULT_FIXED_RNG` and the trigger fires,
`fault_apply` on a buffer of length `len ≥ 1` writes the first `min len 64` bytes of
`FIXED_RNG_SEQUENCE` into the first `min len 64` positions and leaves every byte at index
`≥ 64` as it was; a buffer of length 10 becomes the first 10 reference bytes, a buffer of
length 100 becomes the 64 reference bytes followed by its old bytes 64..99. -/
theorem fixed_pattern_postcondition {R : Type} (rand : R → Nat × R) (m : FaultModel) (r : R)
    (b : List UInt8) (hen : m.enabled ≠ 0) (hty : m.type = .FAULT_FIXED_RNG)
    (hfire : (((rand r).1 % 100 : Nat) : Int) < m.prob_percent)
    (hlen : 1 ≤ b.length) :
    ∃ b1, fault_apply rand m r (some b) = some (some b1, (rand r).2) ∧
      b1.length = b.length ∧
      (∀ i, i < min b.length 64 → b1[i]? = FIXED_RNG_SEQUENCE[i]?) ∧
      (∀ i, 64 ≤ i → b1[i]? = b[i]?) ∧
      (b.length = 10 → b1 = FIXED_RNG_SEQUENCE.take 10) ∧
      (b.length = 100 → b1 = FIXED_RNG_SEQUENCE ++ b.drop 64) := by
  have h64 : FIXED_RNG_SEQUENCE.length = 64 := by decide
  have hn : min b.length 64 ≤ FIXED_RNG_SEQUENCE.length := by rw [h64]; omega
  refine ⟨_, fault_apply_fixed_fired rand m r b hen hty hfire hlen, ?_, ?_, ?_, ?_, ?_⟩
  · simp [h64]
  · intro i hi
    rw [getElem?_overlay b FIXED_RNG_SEQUENCE _ hn i, if_pos hi]
  · intro i hi
    rw [getElem?_overlay b FIXED_RNG_SEQUENCE _ hn i, if_neg (by omega)]
  · intro h10
    rw [h10]
    have hd : b.drop 10 = [] := List.drop_eq_nil_of_le (by omega)
    simp [hd]
  · intro h100
    rw [h100]
    have ht : FIXED_RNG_SEQUENCE.take 64 = FIXED_RNG_SEQUENCE :=
      List.take_of_length_le (by rw [h64])
    simp [ht]

/-- Witness for C6: a 10-byte buffer under the model read from an environment selecting
`FIXED` with probability 100. -/
theorem fixed_pattern_postcondition_witness :
    ∃ b1, fault_apply sample_rand (fault_init_from_env sample_srand env_fixed).1 7
        (some sample_buf10) = some (some b1, (sample_rand 7).2) ∧
      b1.length = sample_buf10.length ∧
      (∀ i, i < min sample_buf10.length 64 → b1[i]? = FIXED_RNG_SEQUENCE[i]?) ∧
      (∀ i, 64 ≤ i → b1[i]? = sample_buf10[i]?) ∧
      (sample_buf10.length = 10 → b1 = FIXED_RNG_SEQUENCE.take 10) ∧
      (sample_buf10.length = 100 → b1 = FIXED_RNG_SEQUENCE ++ sample_buf10.drop 64) :=
  fixed_pattern_postcondition sample_rand (fault_init_from_env sample_srand env_fixed).1 7
    sample_buf10 (by decide) (by decide) (by decide) (by decide)

/-! ## TransitionGuard -/

theorem memcmp_self : ∀ (a : List UInt8) (n : Nat), memcmp a a n = 0 := by
  intro a
  induction a with
  | nil => intro n; cases n <;> rfl
  | cons x xs ih =>
    intro n
    cases n with
    | zero => rfl
    | succ k => simp [memcmp, ih]

/-- On buffers of at least `n` bytes, `memcmp` is `0` exactly when the first `n` bytes agree. -/
theorem memcmp_eq_zero_iff :
    ∀ (n : Nat) (a b : List UInt8), n ≤ a.length → n ≤ b.length →
      (memcmp a b n = 0 ↔ a.take n = b.take n) := by
  intro n
  induction n with
  | zero => intro a b _ _; cases a <;> cases b <;> simp [memcmp]
  | succ k ih =>
    intro a b ha hb
    cases a with
    | nil => simp at ha
    | cons x xs =>
      cases b with
      | nil => simp at hb
      | cons y ys =>
        by_cases hxy : x = y
        · subst hxy
          simp [memcmp, ih xs ys (by simpa using ha) (by simpa using hb)]
        · have hne : (x.toNat : Int) - (y.toNat : Int) ≠ 0 := by
            intro h
            apply hxy
            apply UInt8.ext_iff.mpr
            omega
          simp [memcmp, hxy, hne]

/-- The region read through a memory depends only on the bytes of the region. -/
theorem read_region_congr (mem mem1 : Mem) (addr len : Nat)
    (h : ∀ i, i < len → mem1 (addr + i) = mem (addr + i)) :
    read_region mem1 addr len = read_region mem addr len := by
  unfold read_region
  apply List.map_congr_left
  intro i hi
  exact h i (List.mem_range.mp hi)

theorem read_region_length (mem : Mem) (addr len : Nat) :
    (read_region mem addr len).length = len := by
  simp [read_region]

/-- The counting loop of `estimate_low_entropy` counts the zero bytes. -/
theorem zero_count_foldl (p : List UInt8) (z : Nat) :
    p.foldl (fun z b => if b = 0 then z + 1 else z) z = z + p.count 0 := by
  induction p generalizing z with
  | nil => simp
  | cons x xs ih =>
    by_cases hx : x = 0
    · subst hx
      simp [ih]
      omega
    · have hx1 : ¬ ((x == 0) = true) := by simpa using hx
      simp [ih, hx, List.count_cons, hx1]

/-- Value of `estimate_low_entropy` on a region whose size products do not overflow. -/
theorem estimate_low_entropy_eq (p : List UInt8) (hmax : p.length < 2 ^ 60) :
    estimate_low_entropy (some p)
      = if 32 ≤ p.length ∧ p.count 0 * 10 > p.length * 9 then 1 else 0 := by
  have h60 : (2 : Nat) ^ 60 = 1152921504606846976 := by norm_num
  have h64 : SIZE_MOD = 18446744073709551616 := by norm_num [SIZE_MOD]
  rw [h60] at hmax
  have hc : p.count 0 ≤ p.length := List.count_le_length 0 p
  simp only [estimate_low_entropy, zero_count_foldl, Nat.zero_add, h64]
  by_cases h32 : p.length < 32
  · rw [if_pos h32, if_neg (by omega)]
  · rw [if_neg h32]
    rw [Nat.mod_eq_of_lt (by omega), Nat.mod_eq_of_lt (by omega)]
    by_cases hz : p.count 0 * 10 > p.length * 9
    · rw [if_pos hz, if_pos ⟨by omega, hz⟩]
    · rw [if_neg hz, if_neg (fun h => hz h.2)]

/-- Unfolding of `defense_validate_transition` once its guards are passed. -/
theorem validate_full_eq (s : StateSnapshot) (cfg : DefenseConfig) (ctx : Option String)
    (mem : Mem) (hcfg : s.cfg = some cfg) (hlevel : cfg.level = .DEFENSE_FULL)
    (haddr : s.addr ≠ 0) (hlen : s.len ≠ 0) :
    defense_validate_transition (some s) ctx mem
      = if memcmp s.hash
            (cfg.integrity.checksum_fn (read_region mem s.addr s.len) (List.replicate 32 0))
            (min cfg.integrity.hash_len 32) = 0 then 0
        else if estimate_low_entropy (some (read_region mem s.addr s.len)) ≠ 0 then 0
        else 1 := by
  have hmin : (if cfg.integrity.hash_len > 32 then 32 else cfg.integrity.hash_len)
      = min cfg.integrity.hash_len 32 := by
    split_ifs <;> omega
  have hl : ¬ (cfg.level.toInt < DefenseLevel.DEFENSE_FULL.toInt) := by
    rw [hlevel]; decide
  have hr : ¬ (s.addr = 0 ∨ s.len = 0) := by
    rintro (h | h)
    · exact haddr h
    · exact hlen h
  simp only [defense_validate_transition, hcfg, if_neg hl, if_neg hr, hmin]

/-- C7: at level `DEFENSE_FULL`, for every integrity policy (in particular the weak and
the strong one) and every non-empty region, a snapshot followed by a validation with the
region unmodified returns `0` (stuck state). -/
theorem stuck_state_detected (cfg : DefenseConfig) (snap0 : StateSnapshot) (addr len : Nat)
    (ctx : Option String) (mem mem1 : Mem)
    (hlevel : cfg.level = .DEFENSE_FULL) (haddr : addr ≠ 0) (hlen : 1 ≤ len)
    (hsame : ∀ i, i < len → mem1 (addr + i) = mem (addr + i)) :
    defense_validate_transition (defense_snapshot_take (some cfg) (some snap0) addr len mem)
      ctx mem1 = 0 := by
  have hl : ¬ (cfg.level.toInt < DefenseLevel.DEFENSE_FULL.toInt) := by
    rw [hlevel]; decide
  have hr : ¬ (addr = 0 ∨ len = 0) := by
    rintro (h | h)
    · exact haddr h
    · omega
  have htake : defense_snapshot_take (some cfg) (some snap0) addr len mem
      = some { addr := addr, len := len, cfg := some cfg,
               hash := cfg.integrity.checksum_fn (read_region mem addr len)
                 (List.replicate 32 0) } := by
    simp only [defense_snapshot_take, if_neg hl, if_neg hr]
  rw [htake, validate_full_eq _ cfg ctx mem1 rfl hlevel haddr (by simp only; omega)]
  simp only [read_region_congr mem mem1 addr len hsame, memcmp_self, if_true]

/-- Witness for C7: a 4-byte region at address 4096 under the strong policy. -/
theorem stuck_state_detected_witness :
    defense_validate_transition
      (defense_snapshot_take (some sample_cfg_full_strong) (some StateSnapshot.zeroed)
        4096 4 sample_mem) (some "rng") sample_mem = 0 :=
  stuck_state_detected sample_cfg_full_strong StateSnapshot.zeroed 4096 4 (some "rng")
    sample_mem sample_mem rfl (by decide) (by decide) (fun _ _ => rfl)

/-- C8: at level `DEFENSE_FULL`, for a snapshot of a non-empty region whose current digest
differs from the stored digest within the first `hash_len` bytes, validation returns `0`
exactly when the region has at least 32 bytes and `zero_count * 10 > len * 9`, and `1`
otherwise. So 60 zero bytes out of 64 fail, 50 out of 64 pass, exactly 90% zero bytes
pass and a region shorter than 32 bytes passes whatever it holds. -/
theorem low_entropy_rule (s : StateSnapshot) (cfg : DefenseConfig) (ctx : Option String)
    (mem : Mem) (hcfg : s.cfg = some cfg) (hlevel : cfg.level = .DEFENSE_FULL)
    (haddr : s.addr ≠ 0) (hlen : 1 ≤ s.len) (hmax : s.len < 2 ^ 60)
    (hhash : s.hash.length = 32)
    (hcur : (cfg.integrity.checksum_fn (read_region mem s.addr s.len)
      (List.replicate 32 0)).length = 32)
    (hdiff : ∃ i, i < min cfg.integrity.hash_len 32 ∧
      s.hash[i]? ≠ (cfg.integrity.checksum_fn (read_region mem s.addr s.len)
        (List.replicate 32 0))[i]?) :
    (defense_validate_transition (some s) ctx mem = 0 ↔
      (32 ≤ s.len ∧ region_zero_count mem s.addr s.len * 10 > s.len * 9)) ∧
    (¬ (32 ≤ s.len ∧ region_zero_count mem s.addr s.len * 10 > s.len * 9) →
      defense_validate_transition (some s) ctx mem = 1) ∧
    (s.len = 64 → region_zero_count mem s.addr s.len = 60 →
      defense_validate_transition (some s) ctx mem = 0) ∧
    (s.len = 64 → region_zero_count mem s.addr s.len = 50 →
      defense_validate_transition (some s) ctx mem = 1) ∧
    (region_zero_count mem s.addr s.len * 10 = s.len * 9 →
      defense_validate_transition (some s) ctx mem = 1) ∧
    (s.len < 32 → defense_validate_transition (some s) ctx mem = 1) := by
  obtain ⟨i, hi, hne⟩ := hdiff
  have hcmp : memcmp s.hash
      (cfg.integrity.checksum_fn (read_region mem s.addr s.len) (List.replicate 32 0))
      (min cfg.integrity.hash_len 32) ≠ 0 := by
    intro h0
    rw [memcmp_eq_zero_iff _ _ _ (by rw [hhash]; omega) (by rw [hcur]; omega)] at h0
    exact take_ne_of_getElem?_ne _ _ _ i hi hne h0
  have hval : defense_validate_transition (some s) ctx mem
      = if 32 ≤ s.len ∧ region_zero_count mem s.addr s.len * 10 > s.len * 9 then 0 else 1 := by
    rw [validate_full_eq s cfg ctx mem hcfg hlevel haddr (by omega), if_neg hcmp,
      estimate_low_entropy_eq _ (by rw [read_region_length]; exact hmax), read_region_length]
    unfold region_zero_count
    split_ifs <;> simp_all
  rw [hval]
  refine ⟨?_, ?_, ?_, ?_, ?_, ?_⟩
  · split_ifs with h <;> simp [h]
  · intro h; rw [if_neg h]
  · intro h1 h2; rw [if_pos (by omega)]
  · intro h1 h2; rw [if_neg (by omega)]
  · intro h1; rw [if_neg (by omega)]
  · intro h1; rw [if_neg (by omega)]

/-- Witness for C8: a 64-byte region holding 62 zero bytes, digest changed from 7 to 0. -/
theorem low_entropy_rule_witness :
    region_zero_count sample_mem_sparse 4096 64 = 62 ∧
    defense_validate_transition (some sample_snapshot) none sample_mem_sparse = 0 :=
  ⟨by decide,
   ((low_entropy_rule sample_snapshot sample_cfg_full none sample_mem_sparse rfl rfl
      (by decide) (by decide) (by decide) (by decide) (by decide)
      ⟨0, by decide, by decide⟩).1).mpr ⟨by decide, by decide⟩⟩

/-- C9: below `DEFENSE_FULL` the guard does nothing and always passes. With level
`DEFENSE_OFF` or `DEFENSE_LIGHT`, `defense_snapshot_take` leaves the snapshot as it was.
`defense_validate_transition` returns `1`, whatever the memory holds, on a zero-initialised
snapshot, on a snapshot whose configuration is below `DEFENSE_FULL`, and on a snapshot
whose region is null or empty. -/
theorem transition_guard_noop :
    (∀ (cfg : DefenseConfig) (snap : Option StateSnapshot) (addr len : Nat) (mem : Mem),
      cfg.level = .DEFENSE_OFF ∨ cfg.level = .DEFENSE_LIGHT →
      defense_snapshot_take (some cfg) snap addr len mem = snap) ∧
    (∀ (ctx : Option String) (mem : Mem),
      defense_validate_transition (some StateSnapshot.zeroed) ctx mem = 1) ∧
    (∀ (s : StateSnapshot) (cfg : DefenseConfig) (ctx : Option String) (mem : Mem),
      s.cfg = some cfg → cfg.level = .DEFENSE_OFF ∨ cfg.level = .DEFENSE_LIGHT →
      defense_validate_transition (some s) ctx mem = 1) ∧
    (∀ (s : StateSnapshot) (ctx : Option String) (mem : Mem),
      s.addr = 0 ∨ s.len = 0 →
      defense_validate_transition (some s) ctx mem = 1) := by
  refine ⟨?_, ?_, ?_, ?_⟩
  · intro cfg snap addr len mem hl
    have hlt : cfg.level.toInt < DefenseLevel.DEFENSE_FULL.toInt := by
      rcases hl with h | h <;> rw [h] <;> decide
    cases snap with
    | none => rfl
    | some s0 => simp only [defense_snapshot_take, if_pos hlt]
  · intro ctx mem
    rfl
  · intro s cfg ctx mem hcfg hl
    have hlt : cfg.level.toInt < DefenseLevel.DEFENSE_FULL.toInt := by
      rcases hl with h | h <;> rw [h] <;> decide
    simp only [defense_validate_transition, hcfg, if_pos hlt]
  · intro s ctx mem hr
    cases hc : s.cfg with
    | none => simp only [defense_validate_transition, hc]
    | some cfg =>
      by_cases hlt : cfg.level.toInt < DefenseLevel.DEFENSE_FULL.toInt
      · simp only [defense_validate_transition, hc, if_pos hlt]
      · simp only [defense_validate_transition, hc, if_neg hlt, if_pos hr]

/-- Witness for C9: at level `DEFENSE_LIGHT` the snapshot stays zero-initialised and a
validation against any later memory passes. -/
theorem transition_guard_noop_witness :
    defense_snapshot_take (some sample_cfg_light) (some StateSnapshot.zeroed) 4096 64 sample_mem
      = some StateSnapshot.zeroed ∧
    defense_validate_transition (some StateSnapshot.zeroed) none sample_mem_sparse = 1 :=
  ⟨transition_guard_noop.1 sample_cfg_light (some StateSnapshot.zeroed) 4096 64 sample_mem
    (Or.inr rfl), transition_guard_noop.2.1 none sample_mem_sparse⟩

/-! ## Probability trigger -/

/-- The `enabled` flag computed by `fault_init_from_env`. -/
theorem init_enabled_eq {R : Type} (srand : Nat → R) (env : Env) :
    (fault_init_from_env srand env).1.enabled
      = if (fault_init_from_env srand env).1.type ≠ .FAULT_NONE ∧
          (fault_init_from_env srand env).1.prob_percent > 0 then 1 else 0 :=
  rfl

/-- A draw reduced mod 100 is below 100. -/
theorem draw_lt_100 (x : Nat) : ((x % 100 : Nat) : Int) < 100 := by
  omega

/-- C10: for a model resolved by `fault_init_from_env` from any environment (any seed) and
any generator state. With a type other than `FAULT_NONE` and `prob_percent = 100` the
trigger always fires: `fault_should_skip_rng` returns `1` for `FAULT_INSTRUCTION_SKIP`, and
on every non-empty buffer `fault_apply` applies the bit flip, the partial zeroing or the
fixed pattern. With `prob_percent = 0` nothing fires: `fault_should_skip_rng` returns `0`
and `fault_apply` returns every buffer unchanged. -/
theorem trigger_boundary {R : Type} (srand : Nat → R) (rand : R → Nat × R) (env : Env)
    (m : FaultModel) (r : R) (hm : m = (fault_init_from_env srand env).1) :
    (m.type ≠ .FAULT_NONE → m.prob_percent = 100 →
      fault_trigger_now rand m r = (1, (rand r).2) ∧
      (m.type = .FAULT_INSTRUCTION_SKIP → fault_should_skip_rng rand m r = (1, (rand r).2)) ∧
      (∀ b : List UInt8, 1 ≤ b.length → b.length < 2 ^ 63 →
        (m.type = .FAULT_BIT_FLIP →
          ∃ v, b[(rand (rand r).2).1 % b.length]? = some v ∧
            fault_apply rand m r (some b)
              = some (some (b.set ((rand (rand r).2).1 % b.length)
                  (UInt8.ofNat
                    ((v.toNat ^^^ (1 <<< ((rand (rand (rand r).2).2).1 % 8))) % 256))),
                (rand (rand (rand r).2).2).2)) ∧
        (m.type = .FAULT_PARTIAL_ZERO →
          ∃ b1, fault_apply rand m r (some b) = some (some b1, (rand r).2) ∧
            b1.length = b.length ∧
            ∀ i, b1[i]? =
              if b.length / 2 ≤ i ∧
                  i < b.length / 2 + min m.granularity (b.length - b.length / 2)
              then some 0 else b[i]?) ∧
        (m.type = .FAULT_FIXED_RNG →
          fault_apply rand m r (some b)
            = some (some (FIXED_RNG_SEQUENCE.take (min b.length 64)
                ++ b.drop (min b.length 64)), (rand r).2)))) ∧
    (m.prob_percent = 0 →
      fault_should_skip_rng rand m r = (0, r) ∧
      ∀ buf : Option (List UInt8), fault_apply rand m r buf = some (buf, r)) := by
  have hinv : m.enabled = if m.type ≠ .FAULT_NONE ∧ m.prob_percent > 0 then 1 else 0 := by
    rw [hm]; exact init_enabled_eq srand env
  constructor
  · intro hty hp
    have hen : m.enabled ≠ 0 := by
      rw [hinv, if_pos ⟨hty, by rw [hp]; decide⟩]; decide
    have hfire : (((rand r).1 % 100 : Nat) : Int) < m.prob_percent := by
      rw [hp]; exact draw_lt_100 _
    have htrig := fault_trigger_now_fired rand m r hen hfire
    refine ⟨htrig, ?_, ?_⟩
    · intro hs
      simp only [fault_should_skip_rng, hs, htrig]
      simp
    · intro b hlen hmax
      exact ⟨fun h => fault_apply_flip_fired rand m r b hen h hfire hlen,
        fun h => fault_apply_partial_fired rand m r b hen h hfire hlen hmax,
        fun h => fault_apply_fixed_fired rand m r b hen h hfire hlen⟩
  · intro hp
    have hen : m.enabled = 0 := by
      rw [hinv, if_neg (by rw [hp]; simp)]
    constructor
    · by_cases hs : m.type = .FAULT_INSTRUCTION_SKIP
      · simp only [fault_should_skip_rng, hs, fault_trigger_now, hen]
        simp
      · simp only [fault_should_skip_rng]
        rw [if_pos hs]
    · intro buf
      cases buf with
      | none => rfl
      | some b => simp only [fault_apply, hen, true_or, if_true]

/-- Witness for C10: the model read from the scenario environment (`PARTIAL`, probability
100); the trigger fires on the first draw. -/
theorem trigger_boundary_witness :
    fault_trigger_now sample_rand (fault_init_from_env sample_srand env_partial_scenario).1 1
      = (1, (sample_rand 1).2) :=
  ((trigger_boundary sample_srand sample_rand env_partial_scenario
      (fault_init_from_env sample_srand env_partial_scenario).1 1 rfl).1
    (by decide) (by decide)).1

/-! ## IntegrityPolicy -/

theorem spec_xor_all_lt : ∀ (data : List UInt8), spec_xor_all data < 2 ^ 8 := by
  intro data
  induction data with
  | nil => simp [spec_xor_all]
  | cons b bs ih =>
    exact Nat.xor_lt_two_pow (UInt8.toNat_lt_size b) ih

/-- The running XOR of the weak strategy, started at `s`, is `s` XOR all the bytes. -/
theorem xor_loop_eq : ∀ (data : List UInt8) (s : Nat), s < 2 ^ 8 →
    data.foldl (fun s b => (s ^^^ b.toNat) % 256) s = s ^^^ spec_xor_all data := by
  intro data
  induction data with
  | nil => intro s _; simp [spec_xor_all]
  | cons b bs ih =>
    intro s hs
    have hx : s ^^^ b.toNat < 2 ^ 8 := Nat.xor_lt_two_pow hs (UInt8.toNat_lt_size b)
    have hmod : (s ^^^ b.toNat) % 256 = s ^^^ b.toNat := Nat.mod_eq_of_lt (by simpa using hx)
    rw [List.foldl_cons, hmod, ih _ hx, spec_xor_all, Nat.xor_assoc]

/-- The weak strategy as a whole digest. -/
theorem strategy_xor_checksum_eq (data out : List UInt8) (hout : out.length = 32) :
    strategy_xor_checksum data out = UInt8.ofNat (spec_xor_all data) :: List.replicate 31 0 := by
  have hd : out.drop 32 = [] := List.drop_eq_nil_of_le (by omega)
  simp only [strategy_xor_checksum, xor_loop_eq data 0 (by decide), Nat.zero_xor, hd,
    List.append_nil]

/-- C13: for every byte sequence, `strategy_xor_checksum` leaves a 32-byte digest whose
byte 0 is the XOR of all input bytes (`0` for the empty input) and whose bytes 1..31 are
zero. -/
theorem xor_checksum_is_bytewise_xor (data out : List UInt8) (hout : out.length = 32) :
    ∃ b0 : UInt8, strategy_xor_checksum data out = b0 :: List.replicate 31 0 ∧
      b0.toNat = spec_xor_all data ∧
      (strategy_xor_checksum data out).length = 32 ∧
      (data = [] → strategy_xor_checksum data out = List.replicate 32 0) := by
  have hlt : spec_xor_all data < 256 := by simpa using spec_xor_all_lt data
  refine ⟨UInt8.ofNat (spec_xor_all data), strategy_xor_checksum_eq data out hout,
    UInt8.toNat_ofNat_of_lt hlt, ?_, ?_⟩
  · rw [strategy_xor_checksum_eq data out hout]; simp
  · intro he
    rw [strategy_xor_checksum_eq data out hout, he]
    rfl

/-- Witness for C13: the bytes 1, 2, 4 have XOR 7. -/
theorem xor_checksum_is_bytewise_xor_witness :
    spec_xor_all [1, 2, 4] = 7 ∧
    ∃ b0 : UInt8, strategy_xor_checksum [1, 2, 4] (List.replicate 32 0)
        = b0 :: List.replicate 31 0 ∧
      b0.toNat = spec_xor_all [1, 2, 4] ∧
      (strategy_xor_checksum [1, 2, 4] (List.replicate 32 0)).length = 32 ∧
      (([1, 2, 4] : List UInt8) = [] →
        strategy_xor_checksum [1, 2, 4] (List.replicate 32 0) = List.replicate 32 0) :=
  ⟨by decide, xor_checksum_is_bytewise_xor [1, 2, 4] (List.replicate 32 0) (by decide)⟩

theorem spec_fnv1a32_from_lt : ∀ (data : List UInt8) (h : Nat), h < 2 ^ 32 →
    spec_fnv1a32_from h data < 2 ^ 32 := by
  intro data
  induction data with
  | nil => intro h hh; simpa [spec_fnv1a32_from] using hh
  | cons b bs ih =>
    intro h _
    rw [spec_fnv1a32_from]
    exact ih _ (Nat.mod_lt _ (by norm_num))

/-- XOR of a 32-bit accumulator with a byte stays below `2 ^ 32`. -/
theorem xor_byte_lt (h : Nat) (b : UInt8) (hh : h < 2 ^ 32) : h ^^^ b.toNat < 2 ^ 32 := by
  have hb : b.toNat < 2 ^ 32 :=
    lt_of_lt_of_le (UInt8.toNat_lt_size b) (by norm_num [UInt8.size])
  exact Nat.xor_lt_two_pow hh hb

/-- The loop of the strong strategy, started at `h`, computes the specified hash. -/
theorem fnv_loop_eq : ∀ (data : List UInt8) (h : Nat), h < 2 ^ 32 →
    data.foldl (fun h b => ((h ^^^ b.toNat) % 2 ^ 32 * 16777619) % 2 ^ 32) h
      = spec_fnv1a32_from h data := by
  intro data
  induction data with
  | nil => intro h _; simp [spec_fnv1a32_from]
  | cons b bs ih =>
    intro h hh
    have hmod : (h ^^^ b.toNat) % 2 ^ 32 = h ^^^ b.toNat :=
      Nat.mod_eq_of_lt (xor_byte_lt h b hh)
    rw [List.foldl_cons, hmod, ih _ (Nat.mod_lt _ (by norm_num)), spec_fnv1a32_from]

/-- The strong strategy as a whole digest. -/
theorem strategy_fnv1a_checksum_eq (data out : List UInt8) (hout : out.length = 32) :
    strategy_fnv1a_checksum data out
      = [UInt8.ofNat (spec_fnv1a32 data % 256), UInt8.ofNat (spec_fnv1a32 data / 2 ^ 8 % 256),
         UInt8.ofNat (spec_fnv1a32 data / 2 ^ 16 % 256),
         UInt8.ofNat (spec_fnv1a32 data / 2 ^ 24 % 256)] ++ List.replicate 28 0 := by
  have hd : out.drop 32 = [] := List.drop_eq_nil_of_le (by omega)
  simp only [strategy_fnv1a_checksum, fnv_loop_eq data 2166136261 (by norm_num), hd,
    List.append_nil, spec_fnv1a32]

/-- Four little-endian bytes of a 32-bit value add up to the value. -/
theorem le_bytes_sum (h : Nat) (hh : h < 2 ^ 32) :
    (UInt8.ofNat (h % 256)).toNat + 2 ^ 8 * (UInt8.ofNat (h / 2 ^ 8 % 256)).toNat
      + 2 ^ 16 * (UInt8.ofNat (h / 2 ^ 16 % 256)).toNat
      + 2 ^ 24 * (UInt8.ofNat (h / 2 ^ 24 % 256)).toNat = h := by
  rw [UInt8.toNat_ofNat_of_lt (Nat.mod_lt _ (by decide)),
    UInt8.toNat_ofNat_of_lt (Nat.mod_lt _ (by decide)),
    UInt8.toNat_ofNat_of_lt (Nat.mod_lt _ (by decide)),
    UInt8.toNat_ofNat_of_lt (Nat.mod_lt _ (by decide))]
  norm_num at hh ⊢
  omega

/-- C12: for every byte sequence, `strategy_fnv1a_checksum` leaves a 32-byte digest whose
first four bytes are the little-endian encoding of the 32-bit FNV-1a hash `h` (start at
2166136261, then `h := ((h XOR byte) * 16777619) mod 2 ^ 32` for each byte in order) and
whose other 28 bytes are zero; the empty input gives `C5 9D 1C 81` followed by zeros. -/
theorem fnv1a_checksum_is_fnv1a32 (data out : List UInt8) (hout : out.length = 32) :
    ∃ b0 b1 b2 b3 : UInt8,
      strategy_fnv1a_checksum data out = [b0, b1, b2, b3] ++ List.replicate 28 0 ∧
      b0.toNat + 2 ^ 8 * b1.toNat + 2 ^ 16 * b2.toNat + 2 ^ 24 * b3.toNat
        = spec_fnv1a32 data ∧
      (strategy_fnv1a_checksum data out).length = 32 ∧
      strategy_fnv1a_checksum [] out = [0xC5, 0x9D, 0x1C, 0x81] ++ List.replicate 28 0 := by
  have hlt : spec_fnv1a32 data < 2 ^ 32 := spec_fnv1a32_from_lt data _ (by norm_num)
  refine ⟨_, _, _, _, strategy_fnv1a_checksum_eq data out hout, le_bytes_sum _ hlt, ?_, ?_⟩
  · rw [strategy_fnv1a_checksum_eq data out hout]; simp
  · rw [strategy_fnv1a_checksum_eq [] out hout]
    decide

/-- Witness for C12: the one-byte input `61` (the letter a) has FNV-1a hash `E40C292C`. -/
theorem fnv1a_checksum_is_fnv1a32_witness :
    spec_fnv1a32 [0x61] = 0xE40C292C ∧
    strategy_fnv1a_checksum [0x61] (List.replicate 32 0)
      = [0x2C, 0x29, 0x0C, 0xE4] ++ List.replicate 28 0 ∧
    ∃ b0 b1 b2 b3 : UInt8,
      strategy_fnv1a_checksum [0x61] (List.replicate 32 0)
        = [b0, b1, b2, b3] ++ List.replicate 28 0 ∧
      b0.toNat + 2 ^ 8 * b1.toNat + 2 ^ 16 * b2.toNat + 2 ^ 24 * b3.toNat
        = spec_fnv1a32 [0x61] ∧
      (strategy_fnv1a_checksum [0x61] (List.replicate 32 0)).length = 32 ∧
      strategy_fnv1a_checksum [] (List.replicate 32 0)
        = [0xC5, 0x9D, 0x1C, 0x81] ++ List.replicate 28 0 :=
  ⟨by decide, by decide,
   fnv1a_checksum_is_fnv1a32 [0x61] (List.replicate 32 0) (by decide)⟩

/-! ## FaultInjector: degenerate cases, bit flip, skip query -/

/-- The trigger misses when the model is enabled and the draw is not below the probability. -/
theorem fault_trigger_now_missed {R : Type} (rand : R → Nat × R) (m : FaultModel) (r : R)
    (hen : m.enabled ≠ 0) (hmiss : ¬ (((rand r).1 % 100 : Nat) : Int) < m.prob_percent) :
    fault_trigger_now rand m r = (0, (rand r).2) := by
  simp only [fault_trigger_now, if_neg hen, if_neg hmiss]

/-- C14: `fault_apply` does nothing in its four degenerate cases. If the model is
disabled, the buffer is absent, the length is 0 or the type is `FAULT_INSTRUCTION_SKIP`,
the buffer is returned unchanged and the generator state is the initial one (no draw).
When none of these holds and the single trigger draw misses, the buffer is returned
unchanged (the generator has advanced by that one draw). -/
theorem fault_apply_noop {R : Type} (rand : R → Nat × R) (m : FaultModel) (r : R) :
    (∀ buf : Option (List UInt8), m.enabled = 0 → fault_apply rand m r buf = some (buf, r)) ∧
    fault_apply rand m r none = some (none, r) ∧
    fault_apply rand m r (some []) = some (some [], r) ∧
    (∀ buf : Option (List UInt8), m.type = .FAULT_INSTRUCTION_SKIP →
      fault_apply rand m r buf = some (buf, r)) ∧
    (∀ b : List UInt8, m.enabled ≠ 0 → b ≠ [] → m.type ≠ .FAULT_INSTRUCTION_SKIP →
      ¬ (((rand r).1 % 100 : Nat) : Int) < m.prob_percent →
      fault_apply rand m r (some b) = some (some b, (rand r).2)) := by
  refine ⟨?_, rfl, ?_, ?_, ?_⟩
  · intro buf hen
    cases buf with
    | none => rfl
    | some b => simp only [fault_apply, hen, true_or, if_true]
  · simp only [fault_apply, List.length_nil, or_true, if_true]
  · intro buf hs
    cases buf with
    | none => rfl
    | some b =>
      by_cases hg : m.enabled = 0 ∨ b.length = 0
      · simp only [fault_apply, if_pos hg]
      · simp only [fault_apply, if_neg hg, if_pos hs]
  · intro b hen hb hs hmiss
    have hg : ¬ (m.enabled = 0 ∨ b.length = 0) := by
      rintro (h | h)
      · exact hen h
      · exact hb (List.length_eq_zero.mp h)
    have ht : (fault_trigger_now rand m r).1 = 0 := by
      rw [fault_trigger_now_missed rand m r hen hmiss]
    simp only [fault_apply, if_neg hg, if_neg hs, if_pos ht]
    rw [fault_trigger_now_missed rand m r hen hmiss]

/-- Witness for C14: a disabled model, and an enabled bit-flip model with probability 0
whose trigger draw misses. -/
theorem fault_apply_noop_witness :
    fault_apply sample_rand ⟨.FAULT_BIT_FLIP, 50, 1, 1, 0⟩ 1 (some [1, 2, 3])
      = some (some [1, 2, 3], 1) ∧
    fault_apply sample_rand ⟨.FAULT_BIT_FLIP, 0, 1, 1, 1⟩ 1 (some [1, 2, 3])
      = some (some [1, 2, 3], (sample_rand 1).2) :=
  ⟨(fault_apply_noop sample_rand ⟨.FAULT_BIT_FLIP, 50, 1, 1, 0⟩ 1).1 (some [1, 2, 3]) rfl,
   (fault_apply_noop sample_rand ⟨.FAULT_BIT_FLIP, 0, 1, 1, 1⟩ 1).2.2.2.2 [1, 2, 3]
     (by decide) (by decide) (by decide) (by decide)⟩

/-- XOR with `1 << k`, `k < 8`, keeps a byte a byte and toggles exactly bit `k`. -/
theorem byte_toggle_bit (v : UInt8) (k : Nat) (hk : k < 8) :
    (UInt8.ofNat ((v.toNat ^^^ (1 <<< k)) % 256)).toNat = v.toNat ^^^ 2 ^ k ∧
    ∀ j, (v.toNat ^^^ 2 ^ k).testBit j
      = if j = k then !(v.toNat.testBit j) else v.toNat.testBit j := by
  have hp : 2 ^ k < 2 ^ 8 := Nat.pow_lt_pow_right (by decide) hk
  have hx : v.toNat ^^^ 2 ^ k < 2 ^ 8 := Nat.xor_lt_two_pow (UInt8.toNat_lt_size v) hp
  have hx256 : v.toNat ^^^ 2 ^ k < 256 := by simpa using hx
  constructor
  · rw [Nat.one_shiftLeft, Nat.mod_eq_of_lt hx256, UInt8.toNat_ofNat_of_lt hx256]
  · intro j
    rw [Nat.testBit_xor, Nat.testBit_two_pow]
    by_cases hj : j = k
    · subst hj
      simp
    · have hkj : ¬ k = j := fun h => hj h.symm
      simp [hj, hkj]

/-- C15: when the model is enabled with type `FAULT_BIT_FLIP` and the trigger fires, on a
buffer of length `len ≥ 1` the byte at index `idx = (next draw) % len`, which is below
`len`, has exactly its bit `k = (following draw) % 8` toggled, and every other byte is
unchanged; so the buffer after the call differs from the buffer before in exactly one
bit. -/
theorem bit_flip_exactly_one_bit {R : Type} (rand : R → Nat × R) (m : FaultModel) (r : R)
    (b : List UInt8) (hen : m.enabled ≠ 0) (hty : m.type = .FAULT_BIT_FLIP)
    (hfire : (((rand r).1 % 100 : Nat) : Int) < m.prob_percent)
    (hlen : 1 ≤ b.length) :
    ∃ (b1 : List UInt8) (v v1 : UInt8),
      fault_apply rand m r (some b) = some (some b1, (rand (rand (rand r).2).2).2) ∧
      b1.length = b.length ∧
      (rand (rand r).2).1 % b.length < b.length ∧
      (rand (rand (rand r).2).2).1 % 8 < 8 ∧
      b[(rand (rand r).2).1 % b.length]? = some v ∧
      b1[(rand (rand r).2).1 % b.length]? = some v1 ∧
      (∀ j, v1.toNat.testBit j
        = if j = (rand (rand (rand r).2).2).1 % 8 then !(v.toNat.testBit j)
          else v.toNat.testBit j) ∧
      v1 ≠ v ∧
      (∀ i, i ≠ (rand (rand r).2).1 % b.length → b1[i]? = b[i]?) := by
  obtain ⟨v, hv, happ⟩ := fault_apply_flip_fired rand m r b hen hty hfire hlen
  have hidx : (rand (rand r).2).1 % b.length < b.length := Nat.mod_lt _ (by omega)
  have hk : (rand (rand (rand r).2).2).1 % 8 < 8 := Nat.mod_lt _ (by decide)
  obtain ⟨hnat, hbits⟩ := byte_toggle_bit v _ hk
  refine ⟨_, v, _, happ, by simp, hidx, hk, hv, List.getElem?_set_self hidx, ?_, ?_, ?_⟩
  · intro j
    rw [hnat]
    exact hbits j
  · intro heq
    have h1 := hbits ((rand (rand (rand r).2).2).1 % 8)
    rw [← hnat, heq, if_pos rfl] at h1
    cases hb : v.toNat.testBit ((rand (rand (rand r).2).2).1 % 8) <;> simp [hb] at h1
  · intro i hi
    exact List.getElem?_set_ne (fun h => hi h.symm)

/-- Witness for C15: an 8-byte zero buffer; the flip lands on bit 4 of byte 7. -/
theorem bit_flip_exactly_one_bit_witness :
    fault_apply sample_rand ⟨.FAULT_BIT_FLIP, 100, 1, 1, 1⟩ 1 (some (List.replicate 8 0))
      = some (some [0, 0, 0, 0, 0, 0, 0, 16], 662824084) ∧
    ∃ (b1 : List UInt8) (v v1 : UInt8),
      fault_apply sample_rand ⟨.FAULT_BIT_FLIP, 100, 1, 1, 1⟩ 1 (some (List.replicate 8 0))
        = some (some b1, (sample_rand (sample_rand (sample_rand 1).2).2).2) ∧
      b1.length = (List.replicate 8 (0 : UInt8)).length ∧
      (sample_rand (sample_rand 1).2).1 % (List.replicate 8 (0 : UInt8)).length
        < (List.replicate 8 (0 : UInt8)).length ∧
      (sample_rand (sample_rand (sample_rand 1).2).2).1 % 8 < 8 ∧
      (List.replicate 8 (0 : UInt8))[(sample_rand (sample_rand 1).2).1
        % (List.replicate 8 (0 : UInt8)).length]? = some v ∧
      b1[(sample_rand (sample_rand 1).2).1 % (List.replicate 8 (0 : UInt8)).length]?
        = some v1 ∧
      (∀ j, v1.toNat.testBit j
        = if j = (sample_rand (sample_rand (sample_rand 1).2).2).1 % 8
          then !(v.toNat.testBit j) else v.toNat.testBit j) ∧
      v1 ≠ v ∧
      (∀ i, i ≠ (sample_rand (sample_rand 1).2).1 % (List.replicate 8 (0 : UInt8)).length →
        b1[i]? = (List.replicate 8 (0 : UInt8))[i]?) :=
  ⟨by decide,
   bit_flip_exactly_one_bit sample_rand ⟨.FAULT_BIT_FLIP, 100, 1, 1, 1⟩ 1
    (List.replicate 8 0) (by decide) rfl (by decide) (by decide)⟩

/-- C16: `fault_should_skip_rng` returns `0` or `1`; it returns `1` exactly when the type
is `FAULT_INSTRUCTION_SKIP`, the model is enabled and the drawn value mod 100 is strictly
below `prob_percent`; for every other type it returns `0` and leaves the generator state
as it was. -/
theorem should_skip_iff {R : Type} (rand : R → Nat × R) (m : FaultModel) (r : R) :
    ((fault_should_skip_rng rand m r).1 ≠ 0 ↔
      (m.type = .FAULT_INSTRUCTION_SKIP ∧ m.enabled ≠ 0 ∧
        (((rand r).1 % 100 : Nat) : Int) < m.prob_percent)) ∧
    ((fault_should_skip_rng rand m r).1 = 0 ∨ (fault_should_skip_rng rand m r).1 = 1) ∧
    (m.type ≠ .FAULT_INSTRUCTION_SKIP → fault_should_skip_rng rand m r = (0, r)) := by
  by_cases hs : m.type = .FAULT_INSTRUCTION_SKIP
  · have hskip : fault_should_skip_rng rand m r = fault_trigger_now rand m r := by
      simp only [fault_should_skip_rng, hs, ne_eq, not_true_eq_false, if_false]
    rw [hskip]
    by_cases hen : m.enabled = 0
    · have ht : fault_trigger_now rand m r = (0, r) := by
        simp only [fault_trigger_now, if_pos hen]
      rw [ht]
      exact ⟨⟨fun h => absurd rfl h, fun h => absurd hen h.2.1⟩, Or.inl rfl,
        fun h => absurd hs h⟩
    · by_cases hf : (((rand r).1 % 100 : Nat) : Int) < m.prob_percent
      · rw [fault_trigger_now_fired rand m r hen hf]
        exact ⟨⟨fun _ => ⟨hs, hen, hf⟩, fun _ => Int.one_ne_zero⟩, Or.inr rfl,
          fun h => absurd hs h⟩
      · rw [fault_trigger_now_missed rand m r hen hf]
        exact ⟨⟨fun h => absurd rfl h, fun h => absurd h.2.2 hf⟩, Or.inl rfl,
          fun h => absurd hs h⟩
  · have hskip : fault_should_skip_rng rand m r = (0, r) := by
      simp only [fault_should_skip_rng, if_pos hs]
    rw [hskip]
    exact ⟨⟨fun h => absurd rfl h, fun h => absurd h.1 hs⟩, Or.inl rfl, fun _ => rfl⟩

/-- Witness for C16: a bit-flip model never asks to skip and draws nothing. -/
theorem should_skip_iff_witness :
    fault_should_skip_rng sample_rand ⟨.FAULT_BIT_FLIP, 100, 1, 1, 1⟩ 1 = (0, 1) ∧
    (fault_should_skip_rng sample_rand ⟨.FAULT_INSTRUCTION_SKIP, 100, 1, 1, 1⟩ 1).1 ≠ 0 :=
  ⟨(should_skip_iff sample_rand ⟨.FAULT_BIT_FLIP, 100, 1, 1, 1⟩ 1).2.2 (by decide),
   (should_skip_iff sample_rand ⟨.FAULT_INSTRUCTION_SKIP, 100, 1, 1, 1⟩ 1).1.mpr
    ⟨rfl, by decide, by decide⟩⟩

/-- C17: for every environment, after `fault_init_from_env` the field `enabled` is `0` or
`1`, and it is non-zero if and only if the type is not `FAULT_NONE` and
`prob_percent > 0`. -/
theorem init_enabled_invariant {R : Type} (srand : Nat → R) (env : Env) :
    ((fault_init_from_env srand env).1.enabled ≠ 0 ↔
      ((fault_init_from_env srand env).1.type ≠ .FAULT_NONE ∧
        (fault_init_from_env srand env).1.prob_percent > 0)) ∧
    ((fault_init_from_env srand env).1.enabled = 0 ∨
      (fault_init_from_env srand env).1.enabled = 1) := by
  rw [init_enabled_eq srand env]
  by_cases h : (fault_init_from_env srand env).1.type ≠ .FAULT_NONE ∧
      (fault_init_from_env srand env).1.prob_percent > 0
  · rw [if_pos h]
    exact ⟨⟨fun _ => h, fun _ => by decide⟩, Or.inr rfl⟩
  · rw [if_neg h]
    exact ⟨⟨fun h0 => absurd rfl h0, fun h1 => absurd h1 h⟩, Or.inl rfl⟩

/-! ## Initialisation -/

/-- The fields written by `defense_init_from_env`. -/
theorem defense_init_fields (env : Env) (cfg0 cfg : DefenseConfig)
    (h : defense_init_from_env env (some cfg0) = some cfg) :
    cfg.level =
      (match env "MLDSA_DEFENSE_LEVEL" with
        | some lvl =>
          if lvl = "LIGHT" then .DEFENSE_LIGHT
          else if lvl = "FULL" then .DEFENSE_FULL
          else .DEFENSE_OFF
        | none => .DEFENSE_OFF) ∧
    cfg.integrity.checksum_fn =
      (if env "MLDSA_INTEGRITY_POLICY" = some "STRONG" then strategy_fnv1a_checksum
        else strategy_xor_checksum) ∧
    cfg.integrity.hash_len = (if env "MLDSA_INTEGRITY_POLICY" = some "STRONG" then 4 else 1) ∧
    cfg.integrity.name =
      (if env "MLDSA_INTEGRITY_POLICY" = some "STRONG" then "STRONG_FNV" else "WEAK_XOR") ∧
    cfg.enable_self_verify
      = (if cfg.level.toInt ≥ DefenseLevel.DEFENSE_LIGHT.toInt then 1 else 0) ∧
    cfg.enable_duplication
      = (if cfg.level.toInt ≥ DefenseLevel.DEFENSE_FULL.toInt then 1 else 0) := by
  simp only [defense_init_from_env, Option.some.injEq] at h
  subst h
  refine ⟨rfl, ?_, ?_, ?_, rfl, rfl⟩
  · cases hp : env "MLDSA_INTEGRITY_POLICY" with
    | none => simp
    | some p =>
      by_cases hs : p = "STRONG"
      · simp [hs]
      · simp [hs]
  · cases hp : env "MLDSA_INTEGRITY_POLICY" with
    | none => simp
    | some p =>
      by_cases hs : p = "STRONG"
      · simp [hs]
      · simp [hs]
  · cases hp : env "MLDSA_INTEGRITY_POLICY" with
    | none => simp
    | some p =>
      by_cases hs : p = "STRONG"
      · simp [hs]
      · simp [hs]

/-- C19: for every environment, `defense_init_from_env` on a present configuration
succeeds, and afterwards `enable_self_verify` is set iff `level ≥ DEFENSE_LIGHT`,
`enable_duplication` is set iff `level ≥ DEFENSE_FULL`, and the integrity policy has
`1 ≤ hash_len ≤ 32`: `hash_len = 4` with `strategy_fnv1a_checksum` when the policy
variable is `STRONG`, `hash_len = 1` with `strategy_xor_checksum` otherwise. -/
theorem defense_init_invariants (env : Env) (cfg0 : DefenseConfig) :
    ∃ cfg, defense_init_from_env env (some cfg0) = some cfg ∧
      (cfg.enable_self_verify ≠ 0 ↔ cfg.level.toInt ≥ DefenseLevel.DEFENSE_LIGHT.toInt) ∧
      (cfg.enable_duplication ≠ 0 ↔ cfg.level.toInt ≥ DefenseLevel.DEFENSE_FULL.toInt) ∧
      (cfg.enable_self_verify = 0 ∨ cfg.enable_self_verify = 1) ∧
      (cfg.enable_duplication = 0 ∨ cfg.enable_duplication = 1) ∧
      1 ≤ cfg.integrity.hash_len ∧ cfg.integrity.hash_len ≤ 32 ∧
      ((env "MLDSA_INTEGRITY_POLICY" = some "STRONG" ∧ cfg.integrity.hash_len = 4 ∧
          cfg.integrity.checksum_fn = strategy_fnv1a_checksum) ∨
        (env "MLDSA_INTEGRITY_POLICY" ≠ some "STRONG" ∧ cfg.integrity.hash_len = 1 ∧
          cfg.integrity.checksum_fn = strategy_xor_checksum)) := by
  obtain ⟨cfg, hcfg⟩ : ∃ cfg, defense_init_from_env env (some cfg0) = some cfg :=
    ⟨_, rfl⟩
  obtain ⟨-, hfn, hlen, -, hsv, hdup⟩ := defense_init_fields env cfg0 cfg hcfg
  refine ⟨cfg, hcfg, ?_, ?_, ?_, ?_, ?_, ?_, ?_⟩
  · rw [hsv]; split_ifs with h <;> simp [h]
  · rw [hdup]; split_ifs with h <;> simp [h]
  · rw [hsv]; split_ifs <;> simp
  · rw [hdup]; split_ifs <;> simp
  · rw [hlen]; split_ifs <;> omega
  · rw [hlen]; split_ifs <;> omega
  · by_cases hs : env "MLDSA_INTEGRITY_POLICY" = some "STRONG"
    · left
      rw [hlen, hfn, if_pos hs, if_pos hs]
      exact ⟨hs, rfl, rfl⟩
    · right
      rw [hlen, hfn, if_neg hs, if_neg hs]
      exact ⟨hs, rfl, rfl⟩

theorem string_toList_eq_nil (s : String) : s.toList = [] ↔ s = "" := by
  cases s with
  | mk data =>
    constructor
    · intro h
      have hd : data = [] := h
      rw [hd]
    · intro h
      rw [h]
      rfl

/-- `get_env_int` on an absent or empty variable is the default. -/
theorem get_env_int_default (env : Env) (name : String) (d : Int)
    (h : env name = none ∨ env name = some "") : get_env_int env name d = d := by
  rcases h with h | h
  · simp only [get_env_int, h]
  · simp only [get_env_int, h]
    rfl

/-- `get_env_int` on a non-empty value is `atoi` of the value. -/
theorem get_env_int_atoi (env : Env) (name : String) (d : Int) (s : String)
    (h : env name = some s) (hs : s ≠ "") : get_env_int env name d = atoi s := by
  have hne : ¬ s.toList = [] := fun h0 => hs ((string_toList_eq_nil s).mp h0)
  simp only [get_env_int, h, if_neg hne]

theorem isdigit_not_space (c : Char) (h : isdigit c = true) :
    isspace c = false ∧ c ≠ '-' ∧ c ≠ '+' := by
  simp only [isdigit, Bool.and_eq_true, decide_eq_true_eq] at h
  refine ⟨?_, ?_, ?_⟩
  · simp only [isspace, Bool.or_eq_false_iff, decide_eq_false_iff_not, Bool.and_eq_false_iff]
    omega
  · intro hc
    rw [hc] at h
    exact absurd h.1 (by decide)
  · intro hc
    rw [hc] at h
    exact absurd h.1 (by decide)

/-- The digit loop over a run of digits followed by a non-digit computes the run's value
in positional notation on top of the accumulator. -/
theorem atoi_digits_append : ∀ (digits rest : List Char) (acc : Int),
    (∀ c ∈ digits, isdigit c = true) → (∀ c, rest.head? = some c → isdigit c = false) →
    atoi_digits (digits ++ rest) acc = acc * 10 ^ digits.length + decimal_value digits := by
  intro digits
  induction digits with
  | nil =>
    intro rest acc _ hrest
    cases rest with
    | nil => simp [atoi_digits, decimal_value]
    | cons c r =>
      have hc : isdigit c = false := hrest c rfl
      simp [atoi_digits, decimal_value, hc]
  | cons d ds ih =>
    intro rest acc hdig hrest
    have hd : isdigit d = true := hdig d (List.mem_cons_self d ds)
    have hds : ∀ c ∈ ds, isdigit c = true := fun c hc => hdig c (List.mem_cons_of_mem d hc)
    rw [List.cons_append, atoi_digits, if_pos hd, ih rest _ hds hrest, decimal_value,
      List.length_cons, pow_succ]
    ring

theorem dropWhile_isspace_append : ∀ (ws t : List Char), (∀ c ∈ ws, isspace c = true) →
    (ws ++ t).dropWhile isspace = t.dropWhile isspace := by
  intro ws
  induction ws with
  | nil => intro t _; rfl
  | cons w ws ih =>
    intro t h
    have hw : isspace w = true := h w (List.mem_cons_self w ws)
    rw [List.cons_append, List.dropWhile_cons, if_pos hw]
    exact ih t (fun c hc => h c (List.mem_cons_of_mem w hc))

theorem dropWhile_isspace_head (t : List Char)
    (h : ∀ c, t.head? = some c → isspace c = false) : t.dropWhile isspace = t := by
  cases t with
  | nil => rfl
  | cons c r =>
    have hc : isspace c = false := h c rfl
    simp [List.dropWhile_cons, hc]

/-- Value of `strtol` on a text read as white space, sign, digit run and rest. -/
theorem strtol_parse (s : String) (ws sign digits rest : List Char)
    (h : NumericParse s.toList ws sign digits rest) :
    strtol s = strtol_saturate (parsed_value sign digits) := by
  obtain ⟨hs, hws, hsign, hdig, hrest, hfirst⟩ := h
  have hval := fun acc => atoi_digits_append digits rest acc hdig hrest
  unfold strtol
  rw [hs, List.append_assoc, List.append_assoc, dropWhile_isspace_append ws _ hws]
  rcases hsign with h0 | h1 | h2
  · subst h0
    have hhead : ∀ c, (digits ++ rest).head? = some c →
        isspace c = false ∧ c ≠ '-' ∧ c ≠ '+' := by
      intro c hc
      cases digits with
      | nil => exact hfirst rfl rfl c hc
      | cons d ds =>
        have hcd : d = c := by simpa using hc
        rw [← hcd]
        exact isdigit_not_space d (hdig d (List.mem_cons_self d ds))
    rw [List.nil_append, dropWhile_isspace_head _ (fun c hc => (hhead c hc).1)]
    have hpv : parsed_value [] digits = decimal_value digits := by
      simp [parsed_value]
    rw [hpv]
    congr 1
    split
    · rename_i r heq
      exact absurd rfl ((hhead '-' (by rw [heq]; rfl)).2.1)
    · rename_i r heq
      exact absurd rfl ((hhead '+' (by rw [heq]; rfl)).2.2)
    · rw [hval 0]
      ring
  · subst h1
    have hd : (['-'] ++ (digits ++ rest)).dropWhile isspace = '-' :: (digits ++ rest) := by
      apply dropWhile_isspace_head
      intro c hc
      have hcd : '-' = c := by simpa using hc
      rw [← hcd]
      decide
    rw [hd]
    have hpv : parsed_value ['-'] digits = - decimal_value digits := by
      simp [parsed_value]
    rw [hpv]
    show strtol_saturate (- atoi_digits (digits ++ rest) 0) = _
    rw [hval 0]
    congr 1
    ring
  · subst h2
    have hd : (['+'] ++ (digits ++ rest)).dropWhile isspace = '+' :: (digits ++ rest) := by
      apply dropWhile_isspace_head
      intro c hc
      have hcd : '+' = c := by simpa using hc
      rw [← hcd]
      decide
    rw [hd]
    have hpv : parsed_value ['+'] digits = decimal_value digits := by
      simp [parsed_value]
    rw [hpv]
    show strtol_saturate (atoi_digits (digits ++ rest) 0) = _
    rw [hval 0]
    congr 1
    ring

/-! ## A single-byte change is visible in the digest -/

/-- Sequences that differ in exactly one position share a prefix and a suffix around two
different bytes. -/
theorem differAtOne_split (a b : List UInt8) (h : DifferAtOne a b) :
    ∃ (pre suf : List UInt8) (x y : UInt8),
      a = pre ++ x :: suf ∧ b = pre ++ y :: suf ∧ x ≠ y := by
  obtain ⟨hlen, i, hi, hne, hsame⟩ := h
  have hib : i < b.length := by omega
  refine ⟨a.take i, a.drop (i + 1), a[i], b[i], ?_, ?_, ?_⟩
  · apply List.ext_getElem?
    intro n
    by_cases h1 : n < i
    · rw [List.getElem?_append_left (by simp; omega), List.getElem?_take_of_lt h1]
    · have hl : (List.take i a).length = i := by simp; omega
      rw [List.getElem?_append_right (by omega), hl]
      by_cases h2 : n = i
      · subst h2
        simp [List.getElem?_eq_getElem hi]
      · obtain ⟨k, hk⟩ : ∃ k, n - i = k + 1 := ⟨n - i - 1, by omega⟩
        rw [hk, List.getElem?_cons_succ, List.getElem?_drop]
        congr 1
        omega
  · apply List.ext_getElem?
    intro n
    by_cases h1 : n < i
    · rw [List.getElem?_append_left (by simp; omega), List.getElem?_take_of_lt h1]
      exact (hsame n (by omega)).symm
    · have hl : (List.take i a).length = i := by simp; omega
      rw [List.getElem?_append_right (by omega), hl]
      by_cases h2 : n = i
      · subst h2
        simp [List.getElem?_eq_getElem hib]
      · obtain ⟨k, hk⟩ : ∃ k, n - i = k + 1 := ⟨n - i - 1, by omega⟩
        rw [hk, List.getElem?_cons_succ, List.getElem?_drop]
        have he : i + 1 + k = n := by omega
        rw [he]
        exact (hsame n h2).symm
  · intro heq
    apply hne
    rw [List.getElem?_eq_getElem hi, List.getElem?_eq_getElem hib, heq]

theorem spec_xor_all_append (pre l : List UInt8) :
    spec_xor_all (pre ++ l) = spec_xor_all pre ^^^ spec_xor_all l := by
  induction pre with
  | nil => simp [spec_xor_all]
  | cons p ps ih =>
    rw [List.cons_append, spec_xor_all, spec_xor_all, ih, Nat.xor_assoc]

/-- The XOR of all bytes changes when exactly one byte changes. -/
theorem spec_xor_all_ne (a b : List UInt8) (h : DifferAtOne a b) :
    spec_xor_all a ≠ spec_xor_all b := by
  obtain ⟨pre, suf, x, y, ha, hb, hxy⟩ := differAtOne_split a b h
  rw [ha, hb, spec_xor_all_append, spec_xor_all_append, spec_xor_all, spec_xor_all]
  intro heq
  have h1 := Nat.xor_right_injective heq
  have h2 := Nat.xor_left_injective h1
  exact hxy (UInt8.ext_iff.mpr h2)

/-- Multiplication by the FNV prime is injective on 32-bit values. -/
theorem fnv_mul_injective (u v : Nat) (hu : u < 2 ^ 32) (hv : v < 2 ^ 32)
    (h : (u * 16777619) % 2 ^ 32 = (v * 16777619) % 2 ^ 32) : u = v := by
  have hg : Nat.gcd (2 ^ 32) 16777619 = 1 := by norm_num
  have hm : u ≡ v [MOD 2 ^ 32] := Nat.ModEq.cancel_right_of_coprime hg h
  have hm1 : u % 2 ^ 32 = v % 2 ^ 32 := hm
  rwa [Nat.mod_eq_of_lt hu, Nat.mod_eq_of_lt hv] at hm1

/-- One FNV-1a step is injective in the accumulator. -/
theorem fnv_step_injective (h1 h2 : Nat) (c : UInt8) (hh1 : h1 < 2 ^ 32) (hh2 : h2 < 2 ^ 32)
    (h : ((h1 ^^^ c.toNat) * 16777619) % 2 ^ 32 = ((h2 ^^^ c.toNat) * 16777619) % 2 ^ 32) :
    h1 = h2 :=
  Nat.xor_left_injective
    (fnv_mul_injective _ _ (xor_byte_lt h1 c hh1) (xor_byte_lt h2 c hh2) h)

/-- Different accumulators stay different over the same remaining bytes. -/
theorem spec_fnv1a32_from_injective : ∀ (l : List UInt8) (h1 h2 : Nat),
    h1 < 2 ^ 32 → h2 < 2 ^ 32 → h1 ≠ h2 → spec_fnv1a32_from h1 l ≠ spec_fnv1a32_from h2 l := by
  intro l
  induction l with
  | nil => intro h1 h2 _ _ hne; simpa [spec_fnv1a32_from] using hne
  | cons c cs ih =>
    intro h1 h2 hh1 hh2 hne
    rw [spec_fnv1a32_from, spec_fnv1a32_from]
    apply ih _ _ (Nat.mod_lt _ (by norm_num)) (Nat.mod_lt _ (by norm_num))
    intro heq
    exact hne (fnv_step_injective h1 h2 c hh1 hh2 heq)

theorem spec_fnv1a32_from_append (pre l : List UInt8) (h : Nat) :
    spec_fnv1a32_from h (pre ++ l) = spec_fnv1a32_from (spec_fnv1a32_from h pre) l := by
  induction pre generalizing h with
  | nil => rfl
  | cons p ps ih =>
    rw [List.cons_append, spec_fnv1a32_from, spec_fnv1a32_from, ih]

/-- The FNV-1a hash changes when exactly one byte changes. -/
theorem spec_fnv1a32_ne (a b : List UInt8) (h : DifferAtOne a b) :
    spec_fnv1a32 a ≠ spec_fnv1a32 b := by
  obtain ⟨pre, suf, x, y, ha, hb, hxy⟩ := differAtOne_split a b h
  have hp : spec_fnv1a32_from 2166136261 pre < 2 ^ 32 :=
    spec_fnv1a32_from_lt pre _ (by norm_num)
  rw [ha, hb, spec_fnv1a32, spec_fnv1a32, spec_fnv1a32_from_append,
    spec_fnv1a32_from_append, spec_fnv1a32_from, spec_fnv1a32_from]
  apply spec_fnv1a32_from_injective _ _ _ (Nat.mod_lt _ (by norm_num))
    (Nat.mod_lt _ (by norm_num))
  intro heq
  have h1 := fnv_mul_injective _ _ (xor_byte_lt _ x hp) (xor_byte_lt _ y hp) heq
  exact hxy (UInt8.ext_iff.mpr (Nat.xor_right_injective h1))

/-- The significant byte of the weak digest changes when exactly one byte changes. -/
theorem xor_digest_take_ne (a b z : List UInt8) (hz : z.length = 32) (h : DifferAtOne a b) :
    (strategy_xor_checksum a z).take 1 ≠ (strategy_xor_checksum b z).take 1 := by
  rw [strategy_xor_checksum_eq a z hz, strategy_xor_checksum_eq b z hz]
  intro heq
  have h0 : UInt8.ofNat (spec_xor_all a) = UInt8.ofNat (spec_xor_all b) := by
    simpa using heq
  have ha : spec_xor_all a < 256 := by simpa using spec_xor_all_lt a
  have hb : spec_xor_all b < 256 := by simpa using spec_xor_all_lt b
  have h1 := congrArg UInt8.toNat h0
  rw [UInt8.toNat_ofNat_of_lt ha, UInt8.toNat_ofNat_of_lt hb] at h1
  exact spec_xor_all_ne a b h h1

/-- The four significant bytes of the strong digest change when exactly one byte changes. -/
theorem fnv_digest_take_ne (a b z : List UInt8) (hz : z.length = 32) (h : DifferAtOne a b) :
    (strategy_fnv1a_checksum a z).take 4 ≠ (strategy_fnv1a_checksum b z).take 4 := by
  rw [strategy_fnv1a_checksum_eq a z hz, strategy_fnv1a_checksum_eq b z hz]
  intro heq
  have ha : spec_fnv1a32 a < 2 ^ 32 := spec_fnv1a32_from_lt a _ (by norm_num)
  have hb : spec_fnv1a32 b < 2 ^ 32 := spec_fnv1a32_from_lt b _ (by norm_num)
  have h4 : [UInt8.ofNat (spec_fnv1a32 a % 256), UInt8.ofNat (spec_fnv1a32 a / 2 ^ 8 % 256),
      UInt8.ofNat (spec_fnv1a32 a / 2 ^ 16 % 256), UInt8.ofNat (spec_fnv1a32 a / 2 ^ 24 % 256)]
      = [UInt8.ofNat (spec_fnv1a32 b % 256), UInt8.ofNat (spec_fnv1a32 b / 2 ^ 8 % 256),
      UInt8.ofNat (spec_fnv1a32 b / 2 ^ 16 % 256),
      UInt8.ofNat (spec_fnv1a32 b / 2 ^ 24 % 256)] := by
    simpa using heq
  simp only [List.cons.injEq, and_true] at h4
  obtain ⟨e0, e1, e2, e3⟩ := h4
  have hsa := le_bytes_sum _ ha
  have hsb := le_bytes_sum _ hb
  rw [e0, e1, e2, e3] at hsa
  exact spec_fnv1a32_ne a b h (hsa.symm.trans hsb)

/-- At level `DEFENSE_FULL` with the weak or the strong policy, a region that changed in
exactly one byte since the snapshot passes the stuck-state check: the outcome of the
validation is that of the low-entropy check. -/
theorem validate_after_change (cfg : DefenseConfig) (snap0 : StateSnapshot) (addr len : Nat)
    (ctx : Option String) (mem mem1 : Mem)
    (hlevel : cfg.level = .DEFENSE_FULL) (hpol : WeakOrStrong cfg)
    (haddr : addr ≠ 0) (hlen : 1 ≤ len)
    (hd : DifferAtOne (read_region mem addr len) (read_region mem1 addr len)) :
    ∃ s, defense_snapshot_take (some cfg) (some snap0) addr len mem = some s ∧
      memcmp s.hash
        (cfg.integrity.checksum_fn (read_region mem1 addr len) (List.replicate 32 0))
        cfg.integrity.hash_len ≠ 0 ∧
      defense_validate_transition (some s) ctx mem1
        = if estimate_low_entropy (some (read_region mem1 addr len)) ≠ 0 then 0 else 1 := by
  have hl : ¬ (cfg.level.toInt < DefenseLevel.DEFENSE_FULL.toInt) := by
    rw [hlevel]; decide
  have hr : ¬ (addr = 0 ∨ len = 0) := by
    rintro (h | h)
    · exact haddr h
    · omega
  have htake : defense_snapshot_take (some cfg) (some snap0) addr len mem
      = some { addr := addr, len := len, cfg := some cfg,
               hash := cfg.integrity.checksum_fn (read_region mem addr len)
                 (List.replicate 32 0) } := by
    simp only [defense_snapshot_take, if_neg hl, if_neg hr]
  have hz : (List.replicate 32 (0 : UInt8)).length = 32 := by simp
  have hcmp : memcmp (cfg.integrity.checksum_fn (read_region mem addr len)
        (List.replicate 32 0))
      (cfg.integrity.checksum_fn (read_region mem1 addr len) (List.replicate 32 0))
      cfg.integrity.hash_len ≠ 0 := by
    rcases hpol with ⟨hfn, hh⟩ | ⟨hfn, hh⟩
    · rw [hfn, hh]
      intro h0
      rw [memcmp_eq_zero_iff _ _ _
        (by rw [strategy_xor_checksum_eq _ _ hz]; simp)
        (by rw [strategy_xor_checksum_eq _ _ hz]; simp)] at h0
      exact xor_digest_take_ne _ _ _ hz hd h0
    · rw [hfn, hh]
      intro h0
      rw [memcmp_eq_zero_iff _ _ _
        (by rw [strategy_fnv1a_checksum_eq _ _ hz]; simp)
        (by rw [strategy_fnv1a_checksum_eq _ _ hz]; simp)] at h0
      exact fnv_digest_take_ne _ _ _ hz hd h0
  have hmin : min cfg.integrity.hash_len 32 = cfg.integrity.hash_len := by
    rcases hpol with ⟨_, hh⟩ | ⟨_, hh⟩ <;> rw [hh] <;> rfl
  refine ⟨_, htake, hcmp, ?_⟩
  rw [validate_full_eq _ cfg ctx mem1 rfl hlevel haddr (by simp only; omega)]
  simp only [hmin]
  rw [if_neg hcmp]

/-- A fired bit flip changes exactly one byte of the buffer. -/
theorem fault_apply_flip_differs {R : Type} (rand : R → Nat × R) (m : FaultModel) (r : R)
    (b : List UInt8) (hen : m.enabled ≠ 0) (hty : m.type = .FAULT_BIT_FLIP)
    (hfire : (((rand r).1 % 100 : Nat) : Int) < m.prob_percent)
    (hlen : 1 ≤ b.length) :
    ∃ b1 r1, fault_apply rand m r (some b) = some (some b1, r1) ∧ DifferAtOne b b1 := by
  obtain ⟨v, hv, happ⟩ := fault_apply_flip_fired rand m r b hen hty hfire hlen
  have hidx : (rand (rand r).2).1 % b.length < b.length := Nat.mod_lt _ (by omega)
  have hk : (rand (rand (rand r).2).2).1 % 8 < 8 := Nat.mod_lt _ (by decide)
  obtain ⟨hnat, hbits⟩ := byte_toggle_bit v _ hk
  refine ⟨_, _, happ, by simp, _, hidx, ?_, ?_⟩
  · rw [hv, List.getElem?_set_self hidx]
    intro heq
    have hvv := (Option.some.inj heq)
    have h1 := hbits ((rand (rand (rand r).2).2).1 % 8)
    rw [← hnat, ← hvv, if_pos rfl] at h1
    cases hb : v.toNat.testBit ((rand (rand (rand r).2).2).1 % 8) <;> simp [hb] at h1
  · intro j hj
    exact (List.getElem?_set_ne (fun h => hj h.symm)).symm

/-- C20: a single-byte change is never reported as stuck. For two byte sequences of equal
length that differ in exactly one position, the first byte of the weak digest and the
first four bytes of the strong digest differ. Hence at level `DEFENSE_FULL`, with the weak
policy (`hash_len = 1`) or the strong policy (`hash_len = 4`), a snapshot of the first
followed by a validation against the second passes the stuck-state check, and the result
of the validation is that of the low-entropy check. In particular this holds when a fired
`FAULT_BIT_FLIP` was applied to the region between snapshot and validation. -/
theorem single_byte_change_not_stuck :
    (∀ a b z : List UInt8, z.length = 32 → DifferAtOne a b →
      (strategy_xor_checksum a z).take 1 ≠ (strategy_xor_checksum b z).take 1 ∧
      (strategy_fnv1a_checksum a z).take 4 ≠ (strategy_fnv1a_checksum b z).take 4) ∧
    (∀ (cfg : DefenseConfig) (snap0 : StateSnapshot) (addr len : Nat) (ctx : Option String)
        (mem mem1 : Mem),
      cfg.level = .DEFENSE_FULL → WeakOrStrong cfg → addr ≠ 0 → 1 ≤ len →
      DifferAtOne (read_region mem addr len) (read_region mem1 addr len) →
      ∃ s, defense_snapshot_take (some cfg) (some snap0) addr len mem = some s ∧
        memcmp s.hash
          (cfg.integrity.checksum_fn (read_region mem1 addr len) (List.replicate 32 0))
          cfg.integrity.hash_len ≠ 0 ∧
        defense_validate_transition (some s) ctx mem1
          = if estimate_low_entropy (some (read_region mem1 addr len)) ≠ 0 then 0 else 1) ∧
    (∀ (R : Type) (rand : R → Nat × R) (m : FaultModel) (r : R) (cfg : DefenseConfig)
        (snap0 : StateSnapshot) (addr len : Nat) (ctx : Option String) (mem mem1 : Mem),
      cfg.level = .DEFENSE_FULL → WeakOrStrong cfg → addr ≠ 0 → 1 ≤ len →
      m.enabled ≠ 0 → m.type = .FAULT_BIT_FLIP →
      (((rand r).1 % 100 : Nat) : Int) < m.prob_percent →
      ∃ b1 r1, fault_apply rand m r (some (read_region mem addr len)) = some (some b1, r1) ∧
        DifferAtOne (read_region mem addr len) b1 ∧
        (read_region mem1 addr len = b1 →
          ∃ s, defense_snapshot_take (some cfg) (some snap0) addr len mem = some s ∧
            defense_validate_transition (some s) ctx mem1
              = if estimate_low_entropy (some (read_region mem1 addr len)) ≠ 0 then 0
                else 1)) := by
  refine ⟨?_, ?_, ?_⟩
  · intro a b z hz hd
    exact ⟨xor_digest_take_ne a b z hz hd, fnv_digest_take_ne a b z hz hd⟩
  · intro cfg snap0 addr len ctx mem mem1 hlevel hpol haddr hlen hd
    exact validate_after_change cfg snap0 addr len ctx mem mem1 hlevel hpol haddr hlen hd
  · intro R rand m r cfg snap0 addr len ctx mem mem1 hlevel hpol haddr hlen hen hty hfire
    obtain ⟨b1, r1, happ, hd⟩ := fault_apply_flip_differs rand m r (read_region mem addr len)
      hen hty hfire (by rw [read_region_length]; exact hlen)
    refine ⟨b1, r1, happ, hd, ?_⟩
    intro hm
    rw [← hm] at hd
    obtain ⟨s, hs, -, hv⟩ :=
      validate_after_change cfg snap0 addr len ctx mem mem1 hlevel hpol haddr hlen hd
    exact ⟨s, hs, hv⟩

theorem sample_region_differs :
    DifferAtOne (read_region sample_mem 4096 4) (read_region sample_mem_flipped 4096 4) := by
  have e1 : read_region sample_mem 4096 4 = [0, 1, 2, 3] := by decide
  have e2 : read_region sample_mem_flipped 4096 4 = [0, 17, 2, 3] := by decide
  rw [e1, e2]
  refine ⟨rfl, 1, by decide, by decide, ?_⟩
  intro j hj
  rcases j with _ | _ | _ | _ | j
  · rfl
  · exact absurd rfl hj
  · rfl
  · rfl
  · rfl

/-- Witness for C20: the 4-byte region at address 4096 with one bit of its second byte
toggled after the snapshot, under the strong policy; the validation returns `1`. -/
theorem single_byte_change_not_stuck_witness :
    defense_validate_transition
      (defense_snapshot_take (some sample_cfg_full_strong) (some StateSnapshot.zeroed)
        4096 4 sample_mem) none sample_mem_flipped = 1 ∧
    ∃ s, defense_snapshot_take (some sample_cfg_full_strong) (some StateSnapshot.zeroed)
        4096 4 sample_mem = some s ∧
      memcmp s.hash
        (sample_cfg_full_strong.integrity.checksum_fn
          (read_region sample_mem_flipped 4096 4) (List.replicate 32 0))
        sample_cfg_full_strong.integrity.hash_len ≠ 0 ∧
      defense_validate_transition (some s) none sample_mem_flipped
        = if estimate_low_entropy (some (read_region sample_mem_flipped 4096 4)) ≠ 0 then 0
          else 1 :=
  ⟨by decide,
   single_byte_change_not_stuck.2.1 sample_cfg_full_strong StateSnapshot.zeroed 4096 4 none
    sample_mem sample_mem_flipped rfl (Or.inr ⟨rfl, rfl⟩) (by decide) (by decide)
    sample_region_differs⟩

/-! ## Numeric environment values -/

theorem head_dropWhile_false (p : Char → Bool) : ∀ (l : List Char) (c : Char),
    (l.dropWhile p).head? = some c → p c = false := by
  intro l
  induction l with
  | nil => intro c h; simp at h
  | cons x xs ih =>
    intro c h
    by_cases hx : p x = true
    · rw [List.dropWhile_cons, if_pos hx] at h
      exact ih c h
    · rw [List.dropWhile_cons, if_neg hx] at h
      have hxc : x = c := by simpa using h
      rw [← hxc]
      simpa using hx

/-- Every text has a reading as white space, optional sign, digit run and rest. -/
theorem numericParse_exists (cs : List Char) :
    ∃ ws sign digits rest, NumericParse cs ws sign digits rest := by
  have hsplit : cs = cs.takeWhile isspace ++ cs.dropWhile isspace :=
    (List.takeWhile_append_dropWhile isspace cs).symm
  have hws : ∀ c ∈ cs.takeWhile isspace, isspace c = true :=
    fun c hc => List.mem_takeWhile_imp hc
  have hhead := head_dropWhile_false isspace cs
  cases ht : cs.dropWhile isspace with
  | nil =>
    refine ⟨cs.takeWhile isspace, [], [], [], ?_, hws, Or.inl rfl, ?_, ?_, ?_⟩
    · rw [ht] at hsplit
      simpa using hsplit
    · intro c hc; simp at hc
    · intro c hc; simp at hc
    · intro _ _ c hc; simp at hc
  | cons x r =>
    rw [ht] at hsplit hhead
    have hxs : isspace x = false := hhead x rfl
    have hr : r = r.takeWhile isdigit ++ r.dropWhile isdigit :=
      (List.takeWhile_append_dropWhile isdigit r).symm
    by_cases hm : x = '-'
    · refine ⟨cs.takeWhile isspace, ['-'], r.takeWhile isdigit, r.dropWhile isdigit,
        ?_, hws, Or.inr (Or.inl rfl), fun c hc => List.mem_takeWhile_imp hc,
        head_dropWhile_false isdigit r, ?_⟩
      · rw [List.append_assoc, List.append_assoc, ← hr, ← hm]
        exact hsplit
      · intro h; simp at h
    · by_cases hp : x = '+'
      · refine ⟨cs.takeWhile isspace, ['+'], r.takeWhile isdigit, r.dropWhile isdigit,
          ?_, hws, Or.inr (Or.inr rfl), fun c hc => List.mem_takeWhile_imp hc,
          head_dropWhile_false isdigit r, ?_⟩
        · rw [List.append_assoc, List.append_assoc, ← hr, ← hp]
          exact hsplit
        · intro h; simp at h
      · have hxr : x :: r = (x :: r).takeWhile isdigit ++ (x :: r).dropWhile isdigit :=
          (List.takeWhile_append_dropWhile isdigit (x :: r)).symm
        refine ⟨cs.takeWhile isspace, [], (x :: r).takeWhile isdigit,
          (x :: r).dropWhile isdigit, ?_, hws, Or.inl rfl,
          fun c hc => List.mem_takeWhile_imp hc, head_dropWhile_false isdigit (x :: r), ?_⟩
        · rw [List.append_nil, List.append_assoc, ← hxr]
          exact hsplit
        · intro _ hd c hc
          rw [hd, List.nil_append] at hxr
          rw [← hxr] at hc
          have hxc : x = c := by simpa using hc
          rw [← hxc]
          exact ⟨hxs, hm, hp⟩

/-- A value in the range of `int` passes `strtol` and the conversion to `int` unchanged. -/
theorem long_to_int_saturate_id (v : Int) (hlo : -2147483648 ≤ v) (hhi : v < 2147483648) :
    long_to_int (strtol_saturate v) = v := by
  have h1 : ¬ v > LONG_MAX := by unfold LONG_MAX; omega
  have h2 : ¬ v < LONG_MIN := by unfold LONG_MIN; omega
  rw [strtol_saturate, if_neg h1, if_neg h2, long_to_int]
  omega

/-- The result of `atoi` is a 32-bit `int`. -/
theorem atoi_range (s : String) : -2147483648 ≤ atoi s ∧ atoi s < 2147483648 := by
  unfold atoi long_to_int
  omega

/-- The rule of `atoi`: on a text read as white space, sign, digit run and rest, the
result is the signed value of the digit run, saturated to `long` and truncated to `int`. -/
theorem atoi_parse (s : String) (ws sign digits rest : List Char)
    (h : NumericParse s.toList ws sign digits rest) :
    atoi s = long_to_int (strtol_saturate (parsed_value sign digits)) := by
  rw [atoi, strtol_parse s ws sign digits rest h]

theorem parsed_value_nil (sign : List Char) : parsed_value sign [] = 0 := by
  unfold parsed_value
  split_ifs <;> simp [decimal_value]

theorem forall_head_cons (P : Char → Prop) (x : Char) (r : List Char) (hx : P x) :
    ∀ c, (x :: r).head? = some c → P c := by
  intro c hc
  have hxc : x = c := by simpa using hc
  rw [← hxc]
  exact hx

/-- The text `12abc` reads as the digit run `12` followed by `abc`. -/
theorem parse_12abc : NumericParse "12abc".toList [] [] ['1', '2'] ['a', 'b', 'c'] :=
  ⟨rfl, by decide, Or.inl rfl, by decide, forall_head_cons _ 'a' _ (by decide),
    fun _ h => absurd h (by decide)⟩

/-- The text `-abc` reads as a minus sign, an empty digit run and `abc`. -/
theorem parse_minus_abc : NumericParse "-abc".toList [] ['-'] [] ['a', 'b', 'c'] :=
  ⟨rfl, by decide, Or.inr (Or.inl rfl), by decide, forall_head_cons _ 'a' _ (by decide),
    fun h => absurd h (by decide)⟩

/-- The text ` abc` reads as one blank, no sign, an empty digit run and `abc`. -/
theorem parse_blank_abc : NumericParse " abc".toList [' '] [] [] ['a', 'b', 'c'] :=
  ⟨rfl, by decide, Or.inl rfl, by decide, forall_head_cons _ 'a' _ (by decide),
    fun _ _ => forall_head_cons _ 'a' _ (by decide)⟩

/-- Counterexample for C11: with `MLDSA_FAULT_GRAN` and `MLDSA_FAULT_SEED` set to the text
`abc`, which is not a decimal integer, the granularity is `0` and the seed is `0`; the
documented defaults are `1` and `12345`. -/
theorem config_fallback_counterexample :
    env_malformed "MLDSA_FAULT_GRAN" = some "abc" ∧
    env_malformed "MLDSA_FAULT_SEED" = some "abc" ∧
    is_decimal_integer "abc" = false ∧
    (fault_init_from_env sample_srand env_malformed).1.granularity = 0 ∧
    (fault_init_from_env sample_srand env_malformed).1.granularity ≠ 1 ∧
    (fault_init_from_env sample_srand env_malformed).1.seed = 0 ∧
    (fault_init_from_env sample_srand env_malformed).1.seed ≠ 12345 := by
  decide

/-- C11 (amended): for every environment both initialisations return a result. The
keyword variables resolve to `FAULT_NONE`, `DEFENSE_OFF` and the weak policy when absent,
empty or not a recognised keyword. The numeric variables resolve to the defaults `0`, `1`
and `12345` when absent or empty. A non-empty value is converted by `atoi` whatever its
form, then to `size_t` for the granularity and to `unsigned int` for the seed. `atoi`
skips leading white space, reads an optional sign and takes the longest following run of
decimal digits as the number, `0` when the run is empty; the signed number is saturated
to the range of `long` and truncated to a 32-bit `int`, so a number in the range of `int`
is stored as it is. Every text has such a reading, so malformed text resolves to its
leading decimal number and not to the default. -/
theorem config_fallback_amended {R : Type} (srand : Nat → R) (env : Env)
    (cfg0 : DefenseConfig) :
    (∃ m r, fault_init_from_env srand env = (m, r)) ∧
    (∃ cfg, defense_init_from_env env (some cfg0) = some cfg ∧
      ((∀ l, env "MLDSA_DEFENSE_LEVEL" = some l → l ≠ "LIGHT" ∧ l ≠ "FULL") →
        cfg.level = .DEFENSE_OFF) ∧
      (env "MLDSA_INTEGRITY_POLICY" ≠ some "STRONG" →
        cfg.integrity.checksum_fn = strategy_xor_checksum ∧ cfg.integrity.hash_len = 1 ∧
          cfg.integrity.name = "WEAK_XOR")) ∧
    ((∀ t, env "MLDSA_FAULT_TYPE" = some t →
        t ≠ "SKIP" ∧ t ≠ "FLIP" ∧ t ≠ "PARTIAL" ∧ t ≠ "FIXED") →
      (fault_init_from_env srand env).1.type = .FAULT_NONE) ∧
    (env "MLDSA_FAULT_PROB" = none ∨ env "MLDSA_FAULT_PROB" = some "" →
      (fault_init_from_env srand env).1.prob_percent = 0) ∧
    (env "MLDSA_FAULT_GRAN" = none ∨ env "MLDSA_FAULT_GRAN" = some "" →
      (fault_init_from_env srand env).1.granularity = 1) ∧
    (env "MLDSA_FAULT_SEED" = none ∨ env "MLDSA_FAULT_SEED" = some "" →
      (fault_init_from_env srand env).1.seed = 12345) ∧
    (∀ s, env "MLDSA_FAULT_PROB" = some s → s ≠ "" →
      (fault_init_from_env srand env).1.prob_percent = atoi s) ∧
    (∀ s, env "MLDSA_FAULT_GRAN" = some s → s ≠ "" →
      (fault_init_from_env srand env).1.granularity = (atoi s % (SIZE_MOD : Int)).toNat) ∧
    (∀ s, env "MLDSA_FAULT_SEED" = some s → s ≠ "" →
      (fault_init_from_env srand env).1.seed = (atoi s % (2 ^ 32 : Int)).toNat) ∧
    (∀ (s : String) (ws sign digits rest : List Char),
      NumericParse s.toList ws sign digits rest →
      atoi s = long_to_int (strtol_saturate (parsed_value sign digits)) ∧
      (digits = [] → atoi s = 0) ∧
      (-2147483648 ≤ parsed_value sign digits → parsed_value sign digits < 2147483648 →
        atoi s = parsed_value sign digits)) ∧
    (∀ s : String, ∃ ws sign digits rest, NumericParse s.toList ws sign digits rest) := by
  refine ⟨⟨_, _, rfl⟩, ?_, ?_, ?_, ?_, ?_, ?_, ?_, ?_, ?_,
    fun s => numericParse_exists s.toList⟩
  · obtain ⟨cfg, hcfg⟩ : ∃ cfg, defense_init_from_env env (some cfg0) = some cfg :=
      ⟨_, rfl⟩
    obtain ⟨hlevel, hfn, hlen, hname, -, -⟩ := defense_init_fields env cfg0 cfg hcfg
    refine ⟨cfg, hcfg, ?_, ?_⟩
    · intro hl
      rw [hlevel]
      cases hv : env "MLDSA_DEFENSE_LEVEL" with
      | none => rfl
      | some l =>
        obtain ⟨h1, h2⟩ := hl l hv
        simp only [if_neg h1, if_neg h2]
    · intro hp
      rw [hfn, hlen, hname, if_neg hp, if_neg hp, if_neg hp]
      exact ⟨rfl, rfl, rfl⟩
  · intro ht
    show (match env "MLDSA_FAULT_TYPE" with
      | none => FaultType.FAULT_NONE
      | some t =>
        if t = "FIXED" then FaultType.FAULT_FIXED_RNG
        else if t = "PARTIAL" then FaultType.FAULT_PARTIAL_ZERO
        else if t = "FLIP" then FaultType.FAULT_BIT_FLIP
        else if t = "SKIP" then FaultType.FAULT_INSTRUCTION_SKIP
        else FaultType.FAULT_NONE) = FaultType.FAULT_NONE
    cases hv : env "MLDSA_FAULT_TYPE" with
    | none => rfl
    | some t =>
      obtain ⟨h1, h2, h3, h4⟩ := ht t hv
      simp only [if_neg h1, if_neg h2, if_neg h3, if_neg h4]
  · intro h
    exact get_env_int_default env _ 0 h
  · intro h
    show (get_env_int env "MLDSA_FAULT_GRAN" 1 % (SIZE_MOD : Int)).toNat = 1
    rw [get_env_int_default env _ 1 h]
    decide
  · intro h
    show (get_env_int env "MLDSA_FAULT_SEED" 12345 % (2 ^ 32 : Int)).toNat = 12345
    rw [get_env_int_default env _ 12345 h]
    decide
  · intro s h hs
    exact get_env_int_atoi env _ 0 s h hs
  · intro s h hs
    show (get_env_int env "MLDSA_FAULT_GRAN" 1 % (SIZE_MOD : Int)).toNat = _
    rw [get_env_int_atoi env _ 1 s h hs]
  · intro s h hs
    show (get_env_int env "MLDSA_FAULT_SEED" 12345 % (2 ^ 32 : Int)).toNat = _
    rw [get_env_int_atoi env _ 12345 s h hs]
  · intro s ws sign digits rest hp
    have hrule := atoi_parse s ws sign digits rest hp
    refine ⟨hrule, ?_, ?_⟩
    · intro hd
      rw [hrule, hd, parsed_value_nil]
      exact long_to_int_saturate_id 0 (by decide) (by decide)
    · intro hlo hhi
      rw [hrule]
      exact long_to_int_saturate_id _ hlo hhi

/-- Witness for C11 (amended): the empty environment resolves to the defaults; with
`MLDSA_FAULT_PROB=12abc` the probability is `12`, and `-abc` and ` abc` convert to `0`;
the granularity text `4294967297` is stored as `1` and the seed text
`99999999999999999999` as `4294967295`. -/
theorem config_fallback_amended_witness :
    (fault_init_from_env sample_srand env_empty).1.granularity = 1 ∧
    (fault_init_from_env sample_srand env_empty).1.seed = 12345 ∧
    (fault_init_from_env sample_srand env_malformed).1.type = .FAULT_NONE ∧
    (fault_init_from_env sample_srand env_numeric_prefix).1.prob_percent = atoi "12abc" ∧
    atoi "12abc" = parsed_value [] ['1', '2'] ∧
    parsed_value [] ['1', '2'] = 12 ∧
    atoi "-abc" = 0 ∧
    atoi " abc" = 0 ∧
    (fault_init_from_env sample_srand env_prob_wrap).1.granularity = 1 ∧
    (fault_init_from_env sample_srand env_prob_wrap).1.seed = 4294967295 :=
  ⟨(config_fallback_amended sample_srand env_empty sample_cfg_light).2.2.2.2.1 (Or.inl rfl),
   (config_fallback_amended sample_srand env_empty sample_cfg_light).2.2.2.2.2.1 (Or.inl rfl),
   (config_fallback_amended sample_srand env_malformed sample_cfg_light).2.2.1
     (fun t ht => by
       have h : t = "BOGUS" := (Option.some.inj ht).symm
       subst h
       decide),
   (config_fallback_amended sample_srand env_numeric_prefix sample_cfg_light).2.2.2.2.2.2.1
     "12abc" rfl (by decide),
   ((config_fallback_amended sample_srand env_empty sample_cfg_light).2.2.2.2.2.2.2.2.2.1
     "12abc" [] [] ['1', '2'] ['a', 'b', 'c'] parse_12abc).2.2 (by decide) (by decide),
   by decide,
   ((config_fallback_amended sample_srand env_empty sample_cfg_light).2.2.2.2.2.2.2.2.2.1
     "-abc" [] ['-'] [] ['a', 'b', 'c'] parse_minus_abc).2.1 rfl,
   ((config_fallback_amended sample_srand env_empty sample_cfg_light).2.2.2.2.2.2.2.2.2.1
     " abc" [' '] [] [] ['a', 'b', 'c'] parse_blank_abc).2.1 rfl,
   by decide, by decide⟩

/-- Counterexample for C18: `MLDSA_FAULT_PROB=150` resolves to `prob_percent = 150` and
`MLDSA_FAULT_PROB=-5` to `prob_percent = -5`, both outside `[0, 100]`. -/
theorem prob_range_counterexample :
    env_prob_150 "MLDSA_FAULT_PROB" = some "150" ∧
    (fault_init_from_env sample_srand env_prob_150).1.prob_percent = 150 ∧
    ¬ ((fault_init_from_env sample_srand env_prob_150).1.prob_percent ≤ 100) ∧
    env_prob_negative "MLDSA_FAULT_PROB" = some "-5" ∧
    (fault_init_from_env sample_srand env_prob_negative).1.prob_percent = -5 ∧
    ¬ (0 ≤ (fault_init_from_env sample_srand env_prob_negative).1.prob_percent) := by
  decide

/-- C18 (amended): for every environment `fault_init_from_env` stores the value read from
`MLDSA_FAULT_PROB` without a range check: `0` when the variable is absent or empty,
otherwise `atoi` of its text, that is the signed leading decimal number saturated to
`long` and truncated to a 32-bit `int`. So `prob_percent` is some 32-bit `int`; when the
number is in the range of `int` it is stored as it is, and `prob_percent` lies in
`[0, 100]` exactly when the number does. Values outside `[0, 100]` are tolerated: with
`prob_percent ≥ 100` and a type other than `FAULT_NONE` the trigger fires on every draw,
and with `prob_percent ≤ 0` the model is disabled and the trigger never fires. -/
theorem prob_range_amended {R : Type} (srand : Nat → R) (env : Env) :
    (fault_init_from_env srand env).1.prob_percent = get_env_int env "MLDSA_FAULT_PROB" 0 ∧
    (env "MLDSA_FAULT_PROB" = none ∨ env "MLDSA_FAULT_PROB" = some "" →
      (fault_init_from_env srand env).1.prob_percent = 0) ∧
    (∀ s, env "MLDSA_FAULT_PROB" = some s → s ≠ "" →
      ((fault_init_from_env srand env).1.prob_percent = atoi s ∧
        ((0 ≤ (fault_init_from_env srand env).1.prob_percent ∧
            (fault_init_from_env srand env).1.prob_percent ≤ 100)
          ↔ (0 ≤ atoi s ∧ atoi s ≤ 100)))) ∧
    (∀ (s : String) (ws sign digits rest : List Char),
      env "MLDSA_FAULT_PROB" = some s → s ≠ "" →
      NumericParse s.toList ws sign digits rest →
      (fault_init_from_env srand env).1.prob_percent
        = long_to_int (strtol_saturate (parsed_value sign digits)) ∧
      (-2147483648 ≤ parsed_value sign digits → parsed_value sign digits < 2147483648 →
        (fault_init_from_env srand env).1.prob_percent = parsed_value sign digits ∧
        ((0 ≤ (fault_init_from_env srand env).1.prob_percent ∧
            (fault_init_from_env srand env).1.prob_percent ≤ 100)
          ↔ (0 ≤ parsed_value sign digits ∧ parsed_value sign digits ≤ 100)))) ∧
    (-2147483648 ≤ (fault_init_from_env srand env).1.prob_percent ∧
      (fault_init_from_env srand env).1.prob_percent < 2147483648) ∧
    (∀ (rand : R → Nat × R) (r : R),
      (fault_init_from_env srand env).1.prob_percent ≥ 100 →
      (fault_init_from_env srand env).1.type ≠ .FAULT_NONE →
      fault_trigger_now rand (fault_init_from_env srand env).1 r = (1, (rand r).2)) ∧
    ((fault_init_from_env srand env).1.prob_percent ≤ 0 →
      (fault_init_from_env srand env).1.enabled = 0 ∧
      ∀ (rand : R → Nat × R) (r : R),
        fault_trigger_now rand (fault_init_from_env srand env).1 r = (0, r)) := by
  refine ⟨rfl, fun h => get_env_int_default env _ 0 h, ?_, ?_, ?_, ?_, ?_⟩
  · intro s h hs
    have hp : (fault_init_from_env srand env).1.prob_percent = atoi s :=
      get_env_int_atoi env _ 0 s h hs
    exact ⟨hp, by rw [hp]⟩
  · intro s ws sign digits rest h hs hparse
    have hp : (fault_init_from_env srand env).1.prob_percent = atoi s :=
      get_env_int_atoi env _ 0 s h hs
    have hrule := atoi_parse s ws sign digits rest hparse
    refine ⟨hp.trans hrule, ?_⟩
    intro hlo hhi
    have hv : (fault_init_from_env srand env).1.prob_percent = parsed_value sign digits := by
      rw [hp, hrule]
      exact long_to_int_saturate_id _ hlo hhi
    exact ⟨hv, by rw [hv]⟩
  · show -2147483648 ≤ get_env_int env "MLDSA_FAULT_PROB" 0 ∧
      get_env_int env "MLDSA_FAULT_PROB" 0 < 2147483648
    unfold get_env_int
    cases env "MLDSA_FAULT_PROB" with
    | none => decide
    | some s =>
      by_cases hs : s.toList = []
      · simp only [if_pos hs]
        decide
      · simp only [if_neg hs]
        exact atoi_range s
  · intro rand r hp hty
    have hen : (fault_init_from_env srand env).1.enabled ≠ 0 := by
      rw [init_enabled_eq srand env, if_pos ⟨hty, by omega⟩]
      exact Int.one_ne_zero
    have hfire : (((rand r).1 % 100 : Nat) : Int)
        < (fault_init_from_env srand env).1.prob_percent := by
      have := draw_lt_100 (rand r).1
      omega
    exact fault_trigger_now_fired rand _ r hen hfire
  · intro hp
    have hen : (fault_init_from_env srand env).1.enabled = 0 := by
      rw [init_enabled_eq srand env, if_neg (fun h => by have := h.2; omega)]
    refine ⟨hen, fun rand r => ?_⟩
    simp only [fault_trigger_now, if_pos hen]

/-- Witness for C18 (amended): with `MLDSA_FAULT_PROB=150` the trigger fires; with `-5` the
model is disabled; with `12abc` the stored value is `12`; with `2147483648`, one above
the largest `int`, the stored value is `-2147483648` and the model is disabled. -/
theorem prob_range_amended_witness :
    fault_trigger_now sample_rand (fault_init_from_env sample_srand env_prob_150).1 1
      = (1, (sample_rand 1).2) ∧
    (fault_init_from_env sample_srand env_prob_negative).1.enabled = 0 ∧
    (fault_init_from_env sample_srand env_numeric_prefix).1.prob_percent
      = parsed_value [] ['1', '2'] ∧
    parsed_value [] ['1', '2'] = 12 ∧
    (fault_init_from_env sample_srand env_prob_wrap).1.prob_percent = atoi "2147483648" ∧
    atoi "2147483648" = -2147483648 ∧
    (fault_init_from_env sample_srand env_prob_wrap).1.enabled = 0 :=
  ⟨(prob_range_amended sample_srand env_prob_150).2.2.2.2.2.1 sample_rand 1
     (by decide) (by decide),
   ((prob_range_amended sample_srand env_prob_negative).2.2.2.2.2.2 (by decide)).1,
   (((prob_range_amended sample_srand env_numeric_prefix).2.2.2.1
     "12abc" [] [] ['1', '2'] ['a', 'b', 'c'] rfl (by decide) parse_12abc).2
     (by decide) (by decide)).1,
   by decide,
   ((prob_range_amended sample_srand env_prob_wrap).2.2.1 "2147483648" rfl (by decide)).1,
   by decide,
   ((prob_range_amended sample_srand env_prob_wrap).2.2.2.2.2.2 (by decide)).1⟩

end FaultDefense
